import Mathlib

/-! # Detective Quest: the mansion map and its exploration

A verification development for `algoritmos_avancados.c`.

* `Sala` is a `struct Sala *`: either `NULL` or a room with a name and its two
  paths.  The map is built once by `criarSala` and assignments of fresh rooms, so
  it is a finite tree without sharing, which is what the inductive type holds.
* `stdin` is the list of bytes still to be read, followed by end-of-input for
  ever; `stdout` is the list of messages printed so far.
* Loops that wait on `stdin` take a step budget: `none` means that the budget
  ran out before the loop came to an end.
-/

namespace DetectiveQuest

/-! ## Data model -/

/-- A name is a C string: the bytes before the terminating zero. -/
abbrev Nome := List Nat

/-- The bytes of an ASCII string. -/
def ascii (s : String) : List Nat := s.toList.map Char.toNat

/-- A value of type `struct Sala *`: `NULL`, or a room with `nome`, `esquerda`
and `direita`. -/
inductive Sala where
  | NULL : Sala
  | mk (nome : Nome) (esquerda direita : Sala) : Sala
deriving DecidableEq, Repr

/-- The test `p == NULL`. -/
def Sala.isNULL : Sala → Bool
  | .NULL => true
  | .mk _ _ _ => false

/-- One link of the tree: `->esquerda` or `->direita`. -/
inductive Lado where
  | esquerda : Lado
  | direita : Lado
deriving DecidableEq, Repr

/-- The identity of a room of the map: the links that lead to it from the root.
Two rooms of an unshared tree are the same room exactly when they have the same
position. -/
abbrev Endereco := List Lado

/-- The pointer `p->esquerda` or `p->direita` (`NULL` has no fields; following
a link from it stays at `NULL`). -/
def Sala.filho : Sala → Lado → Sala
  | .NULL, _ => .NULL
  | .mk _ e _, .esquerda => e
  | .mk _ _ d, .direita => d

/-- The pointer found at a position below `p`. -/
def Sala.em (p : Sala) : Endereco → Sala
  | [] => p
  | l :: ls => (p.filho l).em ls

/-- The number of rooms of a map, one per `criarSala` call that built it. -/
def Sala.contar : Sala → Nat
  | .NULL => 0
  | .mk _ e d => e.contar + d.contar + 1

/-! ## Input and output -/

/-- The messages the program prints, one constructor per `printf` group. -/
inductive Saida where
  /-- line 58: the map was not built -/
  | erroMapa : Saida
  /-- lines 64-65: "Você está em: nome" -/
  | voceEstaEm (nome : Nome) : Saida
  /-- lines 69-70: a leaf was reached, end of the journey -/
  | fimDaJornada : Saida
  /-- line 74: "Escolha o próximo caminho" -/
  | escolhaCaminho : Saida
  /-- line 78: the left option, with the name of the next room -/
  | opcaoEsquerda (nome : Nome) : Saida
  /-- line 81: the right option, with the name of the next room -/
  | opcaoDireita (nome : Nome) : Saida
  /-- lines 83-84: the exit option and the prompt -/
  | opcaoSair : Saida
  /-- line 88: `scanf` did not read a character -/
  | entradaInvalida : Saida
  /-- line 104: no path to the left -/
  | semCaminhoEsquerda : Saida
  /-- line 110: no path to the right -/
  | semCaminhoDireita : Saida
  /-- line 113: leaving the mansion -/
  | saindo : Saida
  /-- line 116: option not recognised -/
  | opcaoNaoReconhecida : Saida
  /-- lines 146-148: the title `main` prints first -/
  | titulo : Saida
  /-- line 177: the greeting `main` prints before the exploration -/
  | boasVindas : Saida
deriving DecidableEq, Repr

/-- The variables `explorarSalas` works on: its cursor and the two streams. -/
structure Estado where
  salaAtual : Sala
  stdin : List Nat
  stdout : List Saida
deriving DecidableEq, Repr

/-- One `printf`: the message goes to the end of `stdout`. -/
def printf (s : Estado) (m : Saida) : Estado :=
  { s with stdout := s.stdout ++ [m] }

/-- The value `EOF` of `<stdio.h>`. -/
def EOF : Int := -1

/-- One `getchar()`: the next byte, or `EOF` when none is left (and none will
come). -/
def getchar : List Nat → Int × List Nat
  | [] => (EOF, [])
  | c :: resto => ((c : Int), resto)

/-- The C `isspace`: space, `\t`, `\n`, `\v`, `\f`, `\r`. -/
def isspace (c : Nat) : Bool :=
  c = 32 || (9 ≤ c && c ≤ 13)

/-- The call `scanf(" %c", &escolha)`: skips white space, then stores one
character.  `none` is the return value `EOF` (no character before the end of the
input), `some c` the return value 1 with `c` stored. -/
def scanf : List Nat → Option Nat × List Nat
  | [] => (none, [])
  | c :: resto => if isspace c then scanf resto else (some c, resto)

/-- Lines 90 and 120, `while (getchar() != '\n');`, one `getchar` per unit of
budget.  The result is the input left after the loop. -/
def limparBuffer : Nat → List Nat → Option (List Nat)
  | 0, _ => none
  | n + 1, entrada =>
    match getchar entrada with
    | (c, resto) => if c ≠ 10 then limparBuffer n resto else some resto

/-! ## explorarSalas -/

/-- Lines 95-97: an upper-case letter becomes its lower-case letter. -/
def paraMinuscula (escolha : Nat) : Nat :=
  if 65 ≤ escolha ∧ escolha ≤ 90 then escolha + 32 else escolha

/-- The four branches of the navigation at lines 100-117. -/
inductive Escolha where
  | esquerda : Escolha
  | direita : Escolha
  | sair : Escolha
  | invalida : Escolha
deriving DecidableEq, Repr

/-- The branch that lines 95-117 take for the character read: the fold to lower
case, then the chain of comparisons with `'e'`, `'d'`, `'s'`. -/
def classificar (c : Nat) : Escolha :=
  let escolha := paraMinuscula c
  if escolha = 101 then .esquerda
  else if escolha = 100 then .direita
  else if escolha = 115 then .sair
  else .invalida

/-- How a turn of the `while` loop ends: at its closing brace (or `continue`),
or by leaving the loop (`break`, or a false loop condition). -/
inductive Controle where
  | continua : Controle
  | para : Controle
deriving DecidableEq, Repr

/-- Lines 74-84: the options on offer at a room that is not a leaf. -/
def exibirOpcoes (esq dir : Sala) (s : Estado) : Estado :=
  let s1 := printf s .escolhaCaminho
  let s2 := match esq with
    | .NULL => s1
    | .mk nomeEsq _ _ => printf s1 (.opcaoEsquerda nomeEsq)
  let s3 := match dir with
    | .NULL => s2
    | .mk nomeDir _ _ => printf s2 (.opcaoDireita nomeDir)
  printf s3 .opcaoSair

/-- Lines 94-117: the navigation for the character `c` read at a room with paths
`esq` and `dir`. -/
def navegar (esq dir : Sala) (c : Nat) (s : Estado) : Controle × Estado :=
  match classificar c with
  | .esquerda =>
    match esq with
    | .NULL => (.continua, printf s .semCaminhoEsquerda)
    | .mk _ _ _ => (.continua, { s with salaAtual := esq })
  | .direita =>
    match dir with
    | .NULL => (.continua, printf s .semCaminhoDireita)
    | .mk _ _ _ => (.continua, { s with salaAtual := dir })
  | .sair => (.para, printf s .saindo)
  | .invalida => (.continua, printf s .opcaoNaoReconhecida)

/-- The end of a turn that does not leave the loop, lines 90-91 and 120: the
rest of the line is read away, and the loop goes to its next turn. -/
def descartarLinha (n : Nat) (s : Estado) : Option (Controle × Estado) :=
  match limparBuffer n s.stdin with
  | none => none
  | some resto => some (.continua, { s with stdin := resto })

/-- One turn of the loop of lines 63-121: the loop condition, then the body.
The budget `n` is that of the `getchar` loop the turn may run. -/
def iteracao (n : Nat) (s : Estado) : Option (Controle × Estado) :=
  match s.salaAtual with
  | .NULL => some (.para, s)
  | .mk nome esq dir =>
    let s1 := printf s (.voceEstaEm nome)
    if esq.isNULL && dir.isNULL then
      some (.para, printf s1 .fimDaJornada)
    else
      let s2 := exibirOpcoes esq dir s1
      match scanf s2.stdin with
      | (none, resto) =>
        descartarLinha n (printf { s2 with stdin := resto } .entradaInvalida)
      | (some c, resto) =>
        match navegar esq dir c { s2 with stdin := resto } with
        | (.para, s4) => some (.para, s4)
        | (.continua, s4) => descartarLinha n s4

/-- The loop of lines 63-121, one turn per unit of budget. -/
def explorarLaco : Nat → Estado → Option Estado
  | 0, _ => none
  | n + 1, s =>
    match iteracao n s with
    | none => none
    | some (.para, s1) => some s1
    | some (.continua, s1) => explorarLaco n s1

/-- The function `explorarSalas`: the parameter `salaAtual` and the two streams
come in the state; the result is the state at the return. -/
def explorarSalas (n : Nat) (s : Estado) : Option Estado :=
  match s.salaAtual with
  | .NULL => some (printf s .erroMapa)
  | .mk _ _ _ => explorarLaco n s

/-! ## liberarMapa -/

/-- The function `liberarMapa` for the pointer `sala` found at position `pos`:
the result lists the rooms passed to `free`, in the order of the calls. -/
def liberarMapa (pos : Endereco) : Sala → List Endereco
  | .NULL => []
  | .mk _ esq dir =>
    liberarMapa (pos ++ [.esquerda]) esq ++ liberarMapa (pos ++ [.direita]) dir ++ [pos]

/-! ## criarSala and main -/

/-- The string left in `dst` by `snprintf(dst, size, "%s", src)`: the first
`size - 1` bytes of `src`, the last byte of `dst` being kept for the zero. -/
def snprintf (size : Nat) (src : Nome) : Nome :=
  src.take (size - 1)

/-- The function `criarSala`, lines 29-47.  `malloc` tells whether the
allocation of line 31 gives memory; when it does not, the process ends at
`exit(EXIT_FAILURE)` and nothing is returned: `none`.  The field `nome` has
30 bytes (line 10). -/
def criarSala (malloc : Bool) (nome : Nome) : Option Sala :=
  if malloc then some (.mk (snprintf 30 nome) .NULL .NULL) else none

/-- The assignment `raiz->l1->...->lk = v` for the links `l1 ... lk`; `none`
when a pointer that has to be followed is `NULL`. -/
def Sala.atribuir : Sala → Endereco → Sala → Option Sala
  | _, [], v => some v
  | .NULL, _ :: _, _ => none
  | .mk nome esq dir, .esquerda :: ls, v => (esq.atribuir ls v).map fun e => .mk nome e dir
  | .mk nome esq dir, .direita :: ls, v => (dir.atribuir ls v).map fun d => .mk nome esq d

/-- One line `hall->l1->...->lk = criarSala(nome);` of `main`: the room is
created, then linked below the hall.  Nothing happens when the process has
ended before (`hall` is `none`), and the process ends when the allocation
fails. -/
def atribuirSala (hall : Option Sala) (pos : Endereco) (malloc : Bool) (nome : Nome) :
    Option Sala :=
  match hall with
  | none => none
  | some h =>
    match criarSala malloc nome with
    | none => none
    | some v => h.atribuir pos v

/-- Lines 154-174 of `main`: the map is built from the hall down.  `malloc k`
tells whether the allocation of the call number `k` of `criarSala` gives
memory.  The result is the pointer `hall`; `none` when a `criarSala` ended the
process. -/
def montarMapa (malloc : Nat → Bool) : Option Sala :=
  let hall := criarSala (malloc 0) (ascii "Hall de Entrada")
  let hall := atribuirSala hall [.esquerda] (malloc 1) (ascii "Sala de Estar")
  let hall := atribuirSala hall [.direita] (malloc 2) (ascii "Biblioteca")
  let hall := atribuirSala hall [.esquerda, .esquerda] (malloc 3) (ascii "Cozinha")
  let hall := atribuirSala hall [.esquerda, .direita] (malloc 4) (ascii "Quarto Principal")
  let hall := atribuirSala hall [.direita, .esquerda] (malloc 5) (ascii "Sala de Jantar")
  let hall := atribuirSala hall [.esquerda, .esquerda, .esquerda] (malloc 6) (ascii "Dispensa")
  let hall := atribuirSala hall [.esquerda, .direita, .esquerda] (malloc 7) (ascii "Banheiro")
  atribuirSala hall [.direita, .esquerda, .direita] (malloc 8) (ascii "Jardim de Inverno")

/-- What a run of `main` leaves: the input not read, the output, the rooms
passed to `free` in order, and the exit status. -/
structure Processo where
  stdin : List Nat
  stdout : List Saida
  liberadas : List Endereco
  status : Int
deriving DecidableEq, Repr

/-- The function `main`, lines 145-186.  `n` is the budget of `explorarSalas`;
`none` means that the budget ran out.  A failed allocation ends the process
with `EXIT_FAILURE` inside `criarSala`. -/
def main (malloc : Nat → Bool) (n : Nat) (stdin : List Nat) : Option Processo :=
  match montarMapa malloc with
  | none => some { stdin := stdin, stdout := [.titulo], liberadas := [], status := 1 }
  | some hall =>
    match explorarSalas n { salaAtual := hall, stdin := stdin, stdout := [.titulo, .boasVindas] } with
    | none => none
    | some s =>
      some { stdin := s.stdin, stdout := s.stdout, liberadas := liberarMapa [] hall, status := 0 }

/-- The number of levels of a map: 0 for `NULL`, one more than that of the
deeper path for a room. -/
def Sala.niveis : Sala → Nat
  | .NULL => 0
  | .mk _ esq dir => max esq.niveis dir.niveis + 1

/-! ## Notions the statements use -/

/-- The messages that end the exploration: the leaf reached, or the exit. -/
def Saida.terminal : Saida → Bool
  | .fimDaJornada => true
  | .saindo => true
  | _ => false

/-- The room is a leaf: lines 68, `esquerda == NULL && direita == NULL`. -/
def Sala.folha : Sala → Bool
  | .NULL => false
  | .mk _ esq dir => esq.isNULL && dir.isNULL

/-- The state after lines 64-84 at a room that is not a leaf: the room is
announced and its options are shown. -/
def anunciar (nome : Nome) (esq dir : Sala) (s : Estado) : Estado :=
  exibirOpcoes esq dir (printf s (.voceEstaEm nome))

/-- The state after `k` turns of the loop that all go on to a next turn, each
with budget `m`; `none` when one of them leaves the loop or runs out of
budget. -/
def turnos (m : Nat) : Nat → Estado → Option Estado
  | 0, s => some s
  | k + 1, s =>
    match iteracao m s with
    | some (.continua, s1) => turnos m k s1
    | _ => none

/-- The input ends within the turn that starts in `s`: `scanf` finds no
character, or it finds one that is not the exit and no newline comes after
it. -/
def fimDaEntrada (s : Estado) : Bool :=
  match scanf s.stdin with
  | (none, _) => true
  | (some c, resto) => classificar c != .sair && decide (10 ∉ resto)

/-- The messages of lines 74-84 for a room with the paths `esq` and `dir`. -/
def listaOpcoes (esq dir : Sala) : List Saida :=
  [.escolhaCaminho] ++
    (match esq with
      | .NULL => []
      | .mk nomeEsq _ _ => [.opcaoEsquerda nomeEsq]) ++
    (match dir with
      | .NULL => []
      | .mk nomeDir _ _ => [.opcaoDireita nomeDir]) ++
    [.opcaoSair]

/-- The branch of the navigation that asks for a side. -/
def Lado.escolha : Lado → Escolha
  | .esquerda => .esquerda
  | .direita => .direita

/-- One line of input that holds a choice: blanks that are not newlines, the
character of the choice, whatever follows it on the line, and the newline
(which `bytes` adds). -/
structure Linha where
  brancos : List Nat
  c : Nat
  lixo : List Nat
deriving DecidableEq, Repr

/-- The bytes of the line, its newline included. -/
def Linha.bytes (l : Linha) : List Nat :=
  l.brancos ++ l.c :: l.lixo ++ [10]

/-- The line is one line with a choice on it: only white space other than
newline before the character, which is not white space, and no newline after
it but the last byte. -/
def Linha.valida (l : Linha) : Bool :=
  l.brancos.all (fun b => isspace b && b != 10) && !isspace l.c && decide (10 ∉ l.lixo)

/-- The lines choose, one after the other, the sides of the path. -/
def escolhem : Endereco → List Linha → Bool
  | [], [] => true
  | l :: ls, x :: xs => x.valida && classificar x.c == l.escolha && escolhem ls xs
  | _, _ => false

/-- The bytes of a list of lines. -/
def bytesDe : List Linha → List Nat
  | [] => []
  | x :: xs => x.bytes ++ bytesDe xs

/-- What the exploration prints on its way from the room `t` down the path `p`
to a leaf, one accepted choice a turn: each room with its options, then the
leaf and the end of the journey. -/
def impresso : Sala → Endereco → List Saida
  | .NULL, _ => []
  | .mk nome _ _, [] => [.voceEstaEm nome, .fimDaJornada]
  | .mk nome esq dir, l :: ls =>
    .voceEstaEm nome :: listaOpcoes esq dir ++ impresso ((Sala.mk nome esq dir).filho l) ls

/-- The move of the turn that starts in `s`: the side asked for by the
character read, when the room is not a leaf and has a room on that side. -/
def movimento (s : Estado) : Option Lado :=
  match s.salaAtual with
  | .NULL => none
  | .mk _ esq dir =>
    if esq.isNULL && dir.isNULL then none
    else
      match scanf s.stdin with
      | (none, _) => none
      | (some c, _) =>
        match classificar c with
        | .esquerda => if esq.isNULL then none else some .esquerda
        | .direita => if dir.isNULL then none else some .direita
        | _ => none

/-- The moves of the first `k` turns of the loop, in order. -/
def caminho (m : Nat) : Nat → Estado → Endereco
  | 0, _ => []
  | k + 1, s =>
    match iteracao m s with
    | some (.continua, s1) => (movimento s).toList ++ caminho m k s1
    | _ => []

/-! ## Small maps and inputs to run the definitions on -/

/-- A room without paths. -/
def folha (nome : String) : Sala := .mk (ascii nome) .NULL .NULL

/-- The tree that lines 154-174 of `main` link together, with the names as
written there. -/
def mansao : Sala :=
  .mk (ascii "Hall de Entrada")
    (.mk (ascii "Sala de Estar")
      (.mk (ascii "Cozinha") (folha "Dispensa") .NULL)
      (.mk (ascii "Quarto Principal") (folha "Banheiro") .NULL))
    (.mk (ascii "Biblioteca")
      (.mk (ascii "Sala de Jantar") .NULL (folha "Jardim de Inverno"))
      .NULL)

/-! ## The map in memory

A second reading of `explorarSalas`, `liberarMapa`, `criarSala` and `main`, in
which a `struct Sala *` is an address and the rooms are cells of a memory that
every function takes and gives back.  Here a function that stored into a room
would give back another memory. -/

namespace Heap

/-- A value of type `struct Sala *`: `none` is `NULL`, `some a` the address
`a`. -/
abbrev Ponteiro := Option Nat

/-- A `struct Sala` in memory: its three fields. -/
structure Celula where
  nome : Nome
  esquerda : Ponteiro
  direita : Ponteiro
deriving DecidableEq, Repr

/-- The memory `malloc` gives rooms from: at each address the room there, or
`none` when no room is there (never given, or freed). -/
abbrev Memoria := List (Option Celula)

/-- The room at an address. -/
def ler (mem : Memoria) (a : Nat) : Option Celula :=
  mem.getD a none

/-- The field `->esquerda` or `->direita` of a room. -/
def Celula.campo (cel : Celula) : Lado → Ponteiro
  | .esquerda => cel.esquerda
  | .direita => cel.direita

/-- The variables `explorarSalas` works on, with the memory its pointer points
into. -/
structure Estado where
  mem : Memoria
  salaAtual : Ponteiro
  stdin : List Nat
  stdout : List Saida
deriving DecidableEq, Repr

/-- One `printf`: the message goes to the end of `stdout`. -/
def printf (s : Estado) (m : Saida) : Estado :=
  { s with stdout := s.stdout ++ [m] }

/-- Lines 74-84: the options of the room `cel`.  The names of the next rooms are
read through its two pointers; `none` when one of them points at no room. -/
def exibirOpcoes (cel : Celula) (s : Estado) : Option Estado :=
  let s1 := printf s .escolhaCaminho
  let s2 : Option Estado :=
    match cel.esquerda with
    | none => some s1
    | some e =>
      match ler s.mem e with
      | none => none
      | some ce => some (printf s1 (.opcaoEsquerda ce.nome))
  match s2 with
  | none => none
  | some s2 =>
    let s3 : Option Estado :=
      match cel.direita with
      | none => some s2
      | some d =>
        match ler s.mem d with
        | none => none
        | some cd => some (printf s2 (.opcaoDireita cd.nome))
    match s3 with
    | none => none
    | some s3 => some (printf s3 .opcaoSair)

/-- Lines 94-117: the navigation for the character `c` read at the room
`cel`. -/
def navegar (cel : Celula) (c : Nat) (s : Estado) : Controle × Estado :=
  match classificar c with
  | .esquerda =>
    match cel.esquerda with
    | none => (.continua, printf s .semCaminhoEsquerda)
    | some e => (.continua, { s with salaAtual := some e })
  | .direita =>
    match cel.direita with
    | none => (.continua, printf s .semCaminhoDireita)
    | some d => (.continua, { s with salaAtual := some d })
  | .sair => (.para, printf s .saindo)
  | .invalida => (.continua, printf s .opcaoNaoReconhecida)

/-- Lines 90-91 and 120: the rest of the line is read away, and the loop goes
to its next turn. -/
def descartarLinha (n : Nat) (s : Estado) : Option (Controle × Estado) :=
  match limparBuffer n s.stdin with
  | none => none
  | some resto => some (.continua, { s with stdin := resto })

/-- One turn of the loop of lines 63-121.  `none` when the budget `n` of the
`getchar` loop runs out, or when a pointer that is followed points at no
room. -/
def iteracao (n : Nat) (s : Estado) : Option (Controle × Estado) :=
  match s.salaAtual with
  | none => some (.para, s)
  | some a =>
    match ler s.mem a with
    | none => none
    | some cel =>
      let s1 := printf s (.voceEstaEm cel.nome)
      if cel.esquerda.isNone && cel.direita.isNone then
        some (.para, printf s1 .fimDaJornada)
      else
        match exibirOpcoes cel s1 with
        | none => none
        | some s2 =>
          match scanf s2.stdin with
          | (none, resto) =>
            descartarLinha n (printf { s2 with stdin := resto } .entradaInvalida)
          | (some c, resto) =>
            match navegar cel c { s2 with stdin := resto } with
            | (.para, s4) => some (.para, s4)
            | (.continua, s4) => descartarLinha n s4

/-- The loop of lines 63-121, one turn per unit of budget. -/
def explorarLaco : Nat → Estado → Option Estado
  | 0, _ => none
  | n + 1, s =>
    match iteracao n s with
    | none => none
    | some (.para, s1) => some s1
    | some (.continua, s1) => explorarLaco n s1

/-- The function `explorarSalas`, lines 54-122. -/
def explorarSalas (n : Nat) (s : Estado) : Option Estado :=
  match s.salaAtual with
  | none => some (printf s .erroMapa)
  | some _ => explorarLaco n s

/-- The state after `k` turns of the loop that all go on to a next turn. -/
def turnos (m : Nat) : Nat → Estado → Option Estado
  | 0, s => some s
  | k + 1, s =>
    match iteracao m s with
    | some (.continua, s1) => turnos m k s1
    | _ => none

/-- The function `liberarMapa`, lines 128-135, on the memory `mem`, with the
addresses passed to `free` so far in `livres`; one level of calls per unit of
budget.  `free` takes the room out of the memory.  `none` when the budget runs
out or a pointer that is followed or freed points at no room. -/
def liberarMapa : Nat → Memoria → List Nat → Ponteiro → Option (Memoria × List Nat)
  | 0, _, _, _ => none
  | _ + 1, mem, livres, none => some (mem, livres)
  | n + 1, mem, livres, some a =>
    match ler mem a with
    | none => none
    | some cel =>
      match liberarMapa n mem livres cel.esquerda with
      | none => none
      | some (mem1, livres1) =>
        match ler mem1 a with
        | none => none
        | some cel1 =>
          match liberarMapa n mem1 livres1 cel1.direita with
          | none => none
          | some (mem2, livres2) =>
            match ler mem2 a with
            | none => none
            | some _ => some (mem2.set a none, livres2 ++ [a])

/-- The function `criarSala`, lines 29-47: the new room takes the next address
of the memory.  `none` when `malloc` gives no memory and the process ends. -/
def criarSala (malloc : Bool) (mem : Memoria) (nome : Nome) : Option (Memoria × Nat) :=
  if malloc then
    some (mem ++ [some { nome := snprintf 30 nome, esquerda := none, direita := none }],
      mem.length)
  else none

/-- The pointer `p->l1->...->lk`; `none` when a pointer that has to be followed
is `NULL` or points at no room. -/
def seguir (mem : Memoria) : Ponteiro → Endereco → Option Ponteiro
  | p, [] => some p
  | none, _ :: _ => none
  | some a, l :: ls =>
    match ler mem a with
    | none => none
    | some cel => seguir mem (cel.campo l) ls

/-- The store `a->l = v`; `none` when no room is at the address `a`. -/
def escrever (mem : Memoria) (a : Nat) (l : Lado) (v : Ponteiro) : Option Memoria :=
  match ler mem a with
  | none => none
  | some cel =>
    some (mem.set a (some (match l with
      | .esquerda => { cel with esquerda := v }
      | .direita => { cel with direita := v })))

/-- One line `hall->l1->...->lk->l = criarSala(nome);` of `main`. -/
def atribuirSala (st : Option (Memoria × Nat)) (pos : Endereco) (l : Lado) (malloc : Bool)
    (nome : Nome) : Option (Memoria × Nat) :=
  match st with
  | none => none
  | some (mem, hall) =>
    match criarSala malloc mem nome with
    | none => none
    | some (mem1, v) =>
      match seguir mem1 (some hall) pos with
      | some (some a) =>
        match escrever mem1 a l (some v) with
        | none => none
        | some mem2 => some (mem2, hall)
      | _ => none

/-- Lines 154-174 of `main`, from an empty memory: the memory with the map in
it, and the pointer `hall`. -/
def montarMapa (malloc : Nat → Bool) : Option (Memoria × Nat) :=
  let st := criarSala (malloc 0) [] (ascii "Hall de Entrada")
  let st := atribuirSala st [] .esquerda (malloc 1) (ascii "Sala de Estar")
  let st := atribuirSala st [] .direita (malloc 2) (ascii "Biblioteca")
  let st := atribuirSala st [.esquerda] .esquerda (malloc 3) (ascii "Cozinha")
  let st := atribuirSala st [.esquerda] .direita (malloc 4) (ascii "Quarto Principal")
  let st := atribuirSala st [.direita] .esquerda (malloc 5) (ascii "Sala de Jantar")
  let st := atribuirSala st [.esquerda, .esquerda] .esquerda (malloc 6) (ascii "Dispensa")
  let st := atribuirSala st [.esquerda, .direita] .esquerda (malloc 7) (ascii "Banheiro")
  atribuirSala st [.direita, .esquerda] .direita (malloc 8) (ascii "Jardim de Inverno")

/-- What a run of `main` leaves: the memory, the input not read, the output,
the addresses passed to `free` in order, and the exit status. -/
structure Processo where
  mem : Memoria
  stdin : List Nat
  stdout : List Saida
  liberadas : List Nat
  status : Int
deriving DecidableEq, Repr

/-- The function `main`, lines 145-186; `n` is the budget of `explorarSalas`
and of `liberarMapa`. -/
def main (malloc : Nat → Bool) (n : Nat) (stdin : List Nat) : Option Processo :=
  match montarMapa malloc with
  | none => some { mem := [], stdin := stdin, stdout := [.titulo], liberadas := [], status := 1 }
  | some (mem, hall) =>
    match explorarSalas n
      { mem := mem, salaAtual := some hall, stdin := stdin, stdout := [.titulo, .boasVindas] } with
    | none => none
    | some s =>
      match liberarMapa n s.mem [] (some hall) with
      | none => none
      | some (mem1, livres) =>
        some { mem := mem1, stdin := s.stdin, stdout := s.stdout, liberadas := livres,
               status := 0 }

/-- The memory `main` has built when it calls `explorarSalas`: the nine rooms
at the addresses 0 to 8, in the order of their `criarSala` calls, the hall at
address 0. -/
def mansao : Memoria :=
  [some ⟨ascii "Hall de Entrada", some 1, some 2⟩,
   some ⟨ascii "Sala de Estar", some 3, some 4⟩,
   some ⟨ascii "Biblioteca", some 5, none⟩,
   some ⟨ascii "Cozinha", some 6, none⟩,
   some ⟨ascii "Quarto Principal", some 7, none⟩,
   some ⟨ascii "Sala de Jantar", none, some 8⟩,
   some ⟨ascii "Dispensa", none, none⟩,
   some ⟨ascii "Banheiro", none, none⟩,
   some ⟨ascii "Jardim de Inverno", none, none⟩]
/-- The pointer `p` into the memory `mem` points at the map `t`: `NULL` for
`NULL`, and for a room an address where the room with that name is, whose two
pointers point at its two paths. -/
def representa (mem : Memoria) : Ponteiro → Sala → Bool
  | none, .NULL => true
  | some a, .mk nome esq dir =>
    match ler mem a with
    | none => false
    | some cel => cel.nome == nome && representa mem cel.esquerda esq &&
        representa mem cel.direita dir
  | _, _ => false

/-- The state of the exploration in memory is the state `st` of the
exploration on the map: the same input and output, and a cursor that points at
the map `st.salaAtual`. -/
def corresponde (s : Estado) (st : DetectiveQuest.Estado) : Prop :=
  st.stdin = s.stdin ∧ st.stdout = s.stdout ∧ representa s.mem s.salaAtual st.salaAtual = true
end Heap

/-! # Theorems -/

/-! ## The input loops -/

theorem limparBuffer_linha (lixo depois : List Nat) (h : 10 ∉ lixo) :
    ∀ n, lixo.length < n → limparBuffer n (lixo ++ 10 :: depois) = some depois := by
  induction lixo with
  | nil =>
    intro n hn
    cases n with
    | zero => simp at hn
    | succ n => simp [limparBuffer, getchar]
  | cons c cs ih =>
    intro n hn
    cases n with
    | zero => simp at hn
    | succ n =>
      have hc : c ≠ 10 := fun e => h (by simp [e])
      have hcs : 10 ∉ cs := fun e => h (by simp [e])
      have hlen : cs.length < n := by simpa using hn
      have hci : (c : Int) ≠ 10 := by exact_mod_cast hc
      simp [limparBuffer, getchar, hci, ih hcs n hlen]

theorem limparBuffer_sem_linha (entrada : List Nat) (h : 10 ∉ entrada) :
    ∀ n, limparBuffer n entrada = none := by
  intro n
  induction n generalizing entrada with
  | zero => rfl
  | succ n ih =>
    cases entrada with
    | nil => simp [limparBuffer, getchar, EOF, ih [] (by simp)]
    | cons c cs =>
      have hc : c ≠ 10 := fun e => h (by simp [e])
      have hcs : 10 ∉ cs := fun e => h (by simp [e])
      have hci : (c : Int) ≠ 10 := by exact_mod_cast hc
      simp [limparBuffer, getchar, hci, ih cs hcs]

theorem exibirOpcoes_salaAtual (esq dir : Sala) (s : Estado) :
    (exibirOpcoes esq dir s).salaAtual = s.salaAtual := by
  cases esq <;> cases dir <;> rfl

theorem exibirOpcoes_stdin (esq dir : Sala) (s : Estado) :
    (exibirOpcoes esq dir s).stdin = s.stdin := by
  cases esq <;> cases dir <;> rfl

theorem exibirOpcoes_stdout (esq dir : Sala) (s : Estado) :
    ∃ novas, (exibirOpcoes esq dir s).stdout = s.stdout ++ novas ∧
      ∀ m ∈ novas, m.terminal = false := by
  cases esq with
  | NULL =>
    cases dir with
    | NULL => exact ⟨[.escolhaCaminho, .opcaoSair], by simp [exibirOpcoes, printf], by simp [Saida.terminal]⟩
    | mk nd _ _ =>
      exact ⟨[.escolhaCaminho, .opcaoDireita nd, .opcaoSair], by simp [exibirOpcoes, printf],
        by simp [Saida.terminal]⟩
  | mk ne _ _ =>
    cases dir with
    | NULL =>
      exact ⟨[.escolhaCaminho, .opcaoEsquerda ne, .opcaoSair], by simp [exibirOpcoes, printf],
        by simp [Saida.terminal]⟩
    | mk nd _ _ =>
      exact ⟨[.escolhaCaminho, .opcaoEsquerda ne, .opcaoDireita nd, .opcaoSair],
        by simp [exibirOpcoes, printf], by simp [Saida.terminal]⟩

/-! ## One turn of the exploration loop -/

theorem anunciar_salaAtual (nome : Nome) (esq dir : Sala) (s : Estado) :
    (anunciar nome esq dir s).salaAtual = s.salaAtual := by
  simp [anunciar, exibirOpcoes_salaAtual, printf]

theorem anunciar_stdin (nome : Nome) (esq dir : Sala) (s : Estado) :
    (anunciar nome esq dir s).stdin = s.stdin := by
  simp [anunciar, exibirOpcoes_stdin, printf]

theorem anunciar_stdout (nome : Nome) (esq dir : Sala) (s : Estado) :
    ∃ novas, (anunciar nome esq dir s).stdout = s.stdout ++ novas ∧
      ∀ m ∈ novas, m.terminal = false := by
  obtain ⟨novas, h1, h2⟩ := exibirOpcoes_stdout esq dir (printf s (.voceEstaEm nome))
  refine ⟨.voceEstaEm nome :: novas, ?_, ?_⟩
  · unfold anunciar
    rw [h1]
    simp [printf]
  · intro m hm
    rcases List.mem_cons.mp hm with h | h
    · subst h; rfl
    · exact h2 m h

theorem navegar_stdin (esq dir : Sala) (c : Nat) (s : Estado) :
    (navegar esq dir c s).2.stdin = s.stdin := by
  unfold navegar
  cases classificar c <;> cases esq <;> cases dir <;> rfl

/-- A turn that reads the character `c` and does not leave the loop: the rest of
the line goes, and the turn ends in the state the navigation made. -/
theorem iteracao_continua (s s4 : Estado) (nome : Nome) (esq dir : Sala) (c : Nat)
    (resto lixo depois : List Nat) (n : Nat)
    (hsala : s.salaAtual = .mk nome esq dir)
    (hfolha : (esq.isNULL && dir.isNULL) = false)
    (hscanf : scanf s.stdin = (some c, resto))
    (hnav : navegar esq dir c { anunciar nome esq dir s with stdin := resto } = (.continua, s4))
    (hlinha : resto = lixo ++ 10 :: depois) (hlixo : 10 ∉ lixo) (hn : lixo.length < n) :
    iteracao n s = some (.continua, { s4 with stdin := depois }) := by
  have hs4 : s4.stdin = resto := by
    have h := navegar_stdin esq dir c { anunciar nome esq dir s with stdin := resto }
    rw [hnav] at h
    exact h
  have hlimpar : limparBuffer n s4.stdin = some depois := by
    rw [hs4, hlinha]
    exact limparBuffer_linha lixo depois hlixo n hn
  have hscanf2 : scanf (exibirOpcoes esq dir (printf s (.voceEstaEm nome))).stdin
      = (some c, resto) := by
    rw [exibirOpcoes_stdin]
    exact hscanf
  unfold anunciar at hnav
  unfold iteracao
  simp only [hsala, hfolha, hscanf2, hnav, descartarLinha, hlimpar]
  rfl

/-- A turn that reads the character `c` and leaves the loop. -/
theorem iteracao_para (s s4 : Estado) (nome : Nome) (esq dir : Sala) (c : Nat)
    (resto : List Nat) (n : Nat)
    (hsala : s.salaAtual = .mk nome esq dir)
    (hfolha : (esq.isNULL && dir.isNULL) = false)
    (hscanf : scanf s.stdin = (some c, resto))
    (hnav : navegar esq dir c { anunciar nome esq dir s with stdin := resto } = (.para, s4)) :
    iteracao n s = some (.para, s4) := by
  have hscanf2 : scanf (exibirOpcoes esq dir (printf s (.voceEstaEm nome))).stdin
      = (some c, resto) := by
    rw [exibirOpcoes_stdin]
    exact hscanf
  unfold anunciar at hnav
  unfold iteracao
  simp only [hsala, hfolha, hscanf2, hnav]
  rfl

/-- One turn that does not leave the loop hands the loop over to the state it
ends in. -/
theorem explorarLaco_continua (n : Nat) (s s1 : Estado)
    (h : iteracao n s = some (.continua, s1)) :
    explorarLaco (n + 1) s = explorarLaco n s1 := by
  simp [explorarLaco, h]

/-- One turn that leaves the loop ends the loop in its state. -/
theorem explorarLaco_para (n : Nat) (s s1 : Estado)
    (h : iteracao n s = some (.para, s1)) :
    explorarLaco (n + 1) s = some s1 := by
  simp [explorarLaco, h]

/-- What `scanf` takes from the input when it stores a character: white space,
then that character, which is not white space. -/
theorem scanf_some (entrada : List Nat) (c : Nat) (resto : List Nat)
    (h : scanf entrada = (some c, resto)) :
    ∃ brancos, entrada = brancos ++ c :: resto ∧ (∀ b ∈ brancos, isspace b = true) ∧
      isspace c = false := by
  induction entrada with
  | nil => simp [scanf] at h
  | cons a as ih =>
    by_cases ha : isspace a = true
    · rw [scanf, if_pos ha] at h
      obtain ⟨brancos, h1, h2, h3⟩ := ih h
      refine ⟨a :: brancos, by simp [h1], ?_, h3⟩
      intro b hb
      rcases List.mem_cons.mp hb with e | e
      · rw [e]; exact ha
      · exact h2 b e
    · rw [scanf, if_neg ha] at h
      have h1 : a = c := by simpa using congrArg (fun x => x.1) h
      have h2 : as = resto := by simpa using congrArg (fun x => x.2) h
      subst h1 h2
      exact ⟨[], rfl, by simp, by simpa using ha⟩

theorem folha_false (nome : Nome) (esq dir : Sala)
    (h : (Sala.mk nome esq dir).folha = false) : (esq.isNULL && dir.isNULL) = false := h

/-- With a root that is not `NULL`, `explorarSalas` is its loop. -/
theorem explorarSalas_laco (n : Nat) (s : Estado) (nome : Nome) (esq dir : Sala)
    (h : s.salaAtual = .mk nome esq dir) : explorarSalas n s = explorarLaco n s := by
  unfold explorarSalas
  rw [h]

/-! ## The classification of the character read -/

theorem paraMinuscula_eq_iff (c k : Nat) (hk : 97 ≤ k ∧ k ≤ 122) :
    paraMinuscula c = k ↔ c = k ∨ c + 32 = k := by
  unfold paraMinuscula
  split_ifs with h <;> omega

theorem classificar_esquerda_iff (c : Nat) :
    classificar c = .esquerda ↔ c = 101 ∨ c = 69 := by
  have h1 := paraMinuscula_eq_iff c 101 (by omega)
  unfold classificar
  simp only []
  split_ifs with a b d <;> simp <;> omega

theorem classificar_direita_iff (c : Nat) :
    classificar c = .direita ↔ c = 100 ∨ c = 68 := by
  have h1 := paraMinuscula_eq_iff c 101 (by omega)
  have h2 := paraMinuscula_eq_iff c 100 (by omega)
  unfold classificar
  simp only []
  split_ifs with a b d <;> simp <;> omega

theorem classificar_sair_iff (c : Nat) :
    classificar c = .sair ↔ c = 115 ∨ c = 83 := by
  have h1 := paraMinuscula_eq_iff c 101 (by omega)
  have h2 := paraMinuscula_eq_iff c 100 (by omega)
  have h3 := paraMinuscula_eq_iff c 115 (by omega)
  unfold classificar
  simp only []
  split_ifs with a b d <;> simp <;> omega

theorem classificar_invalida_iff (c : Nat) :
    classificar c = .invalida ↔
      c ≠ 101 ∧ c ≠ 69 ∧ c ≠ 100 ∧ c ≠ 68 ∧ c ≠ 115 ∧ c ≠ 83 := by
  have h1 := paraMinuscula_eq_iff c 101 (by omega)
  have h2 := paraMinuscula_eq_iff c 100 (by omega)
  have h3 := paraMinuscula_eq_iff c 115 (by omega)
  unfold classificar
  simp only []
  split_ifs with a b d <;> simp <;> omega

/-! ## The moves -/

/-- C1: at a room that is not a leaf, a turn of the loop that reads 'e' or 'E'
while the left path is there moves `salaAtual` to exactly the left room, and a
turn that reads 'd' or 'D' while the right path is there moves it to exactly
the right room.  The turn throws away the rest of the line, prints nothing but
the room and its options (no end-of-journey and no exit message), and the loop
goes on from the new room, where the leaf test comes first. -/
theorem iteracao_move (s : Estado) (nome : Nome) (esq dir : Sala) (c : Nat)
    (resto lixo depois : List Nat) (n : Nat)
    (hsala : s.salaAtual = .mk nome esq dir)
    (hscanf : scanf s.stdin = (some c, resto))
    (hlinha : resto = lixo ++ 10 :: depois) (hlixo : 10 ∉ lixo) (hn : lixo.length < n) :
    ((c = 101 ∨ c = 69) → esq ≠ .NULL →
      iteracao n s = some (.continua,
        { salaAtual := esq, stdin := depois, stdout := (anunciar nome esq dir s).stdout }) ∧
      explorarLaco (n + 1) s = explorarLaco n
        { salaAtual := esq, stdin := depois, stdout := (anunciar nome esq dir s).stdout }) ∧
    ((c = 100 ∨ c = 68) → dir ≠ .NULL →
      iteracao n s = some (.continua,
        { salaAtual := dir, stdin := depois, stdout := (anunciar nome esq dir s).stdout }) ∧
      explorarLaco (n + 1) s = explorarLaco n
        { salaAtual := dir, stdin := depois, stdout := (anunciar nome esq dir s).stdout }) ∧
    (∃ novas, (anunciar nome esq dir s).stdout = s.stdout ++ novas ∧
      ∀ m ∈ novas, m.terminal = false) := by
  refine ⟨?_, ?_, anunciar_stdout nome esq dir s⟩
  · intro hc hesq
    have hcl : classificar c = .esquerda := by
      rcases hc with h | h <;> subst h <;> rfl
    have hfolha : (esq.isNULL && dir.isNULL) = false := by
      cases esq with
      | NULL => exact absurd rfl hesq
      | mk _ _ _ => rfl
    have hnav : navegar esq dir c { anunciar nome esq dir s with stdin := resto }
        = (.continua, { anunciar nome esq dir s with stdin := resto, salaAtual := esq }) := by
      unfold navegar
      rw [hcl]
      cases esq with
      | NULL => exact absurd rfl hesq
      | mk _ _ _ => rfl
    have hit := iteracao_continua s _ nome esq dir c resto lixo depois n hsala hfolha hscanf
      hnav hlinha hlixo hn
    exact ⟨hit, explorarLaco_continua n s _ hit⟩
  · intro hc hdir
    have hcl : classificar c = .direita := by
      rcases hc with h | h <;> subst h <;> rfl
    have hfolha : (esq.isNULL && dir.isNULL) = false := by
      cases dir with
      | NULL => exact absurd rfl hdir
      | mk _ _ _ => simp [Sala.isNULL]
    have hnav : navegar esq dir c { anunciar nome esq dir s with stdin := resto }
        = (.continua, { anunciar nome esq dir s with stdin := resto, salaAtual := dir }) := by
      unfold navegar
      rw [hcl]
      cases dir with
      | NULL => exact absurd rfl hdir
      | mk _ _ _ => rfl
    have hit := iteracao_continua s _ nome esq dir c resto lixo depois n hsala hfolha hscanf
      hnav hlinha hlixo hn
    exact ⟨hit, explorarLaco_continua n s _ hit⟩

/-- At the hall, the line " Ex" moves to "Sala de Estar" and leaves the next line
in the input; the line "d" moves to "Biblioteca". -/
theorem iteracao_move_witness :
    (iteracao 2 ⟨mansao, ascii " Ex\nd\n", []⟩ = some (.continua,
        { salaAtual := mansao.filho .esquerda, stdin := ascii "d\n",
          stdout := [.voceEstaEm (ascii "Hall de Entrada"), .escolhaCaminho,
            .opcaoEsquerda (ascii "Sala de Estar"), .opcaoDireita (ascii "Biblioteca"),
            .opcaoSair] })) ∧
    (iteracao 1 ⟨mansao, ascii "d\n", []⟩ = some (.continua,
        { salaAtual := mansao.filho .direita, stdin := [],
          stdout := [.voceEstaEm (ascii "Hall de Entrada"), .escolhaCaminho,
            .opcaoEsquerda (ascii "Sala de Estar"), .opcaoDireita (ascii "Biblioteca"),
            .opcaoSair] })) :=
  ⟨((iteracao_move ⟨mansao, ascii " Ex\nd\n", []⟩ (ascii "Hall de Entrada")
      (mansao.filho .esquerda) (mansao.filho .direita) 69 (ascii "x\nd\n") (ascii "x")
      (ascii "d\n") 2 rfl (by decide) (by decide) (by decide) (by decide)).1
      (Or.inr rfl) (by decide)).1,
   ((iteracao_move ⟨mansao, ascii "d\n", []⟩ (ascii "Hall de Entrada")
      (mansao.filho .esquerda) (mansao.filho .direita) 100 (ascii "\n") []
      [] 1 rfl (by decide) (by decide) (by decide) (by decide)).2.1
      (Or.inl rfl) (by decide)).1⟩

/-- C2: at a room with no right path (and so, not being a leaf, with a left
one), a turn that reads 'd' or 'D' leaves `salaAtual` where it is and prints the
"no path to the right" message; at a room with no left path a turn that reads
'e' or 'E' leaves `salaAtual` where it is and prints the "no path to the left"
message.  The rest of the line goes and the loop goes on from the same room. -/
theorem iteracao_sem_caminho (s : Estado) (nome : Nome) (esq dir : Sala) (c : Nat)
    (resto lixo depois : List Nat) (n : Nat)
    (hsala : s.salaAtual = .mk nome esq dir)
    (hfolha : (Sala.mk nome esq dir).folha = false)
    (hscanf : scanf s.stdin = (some c, resto))
    (hlinha : resto = lixo ++ 10 :: depois) (hlixo : 10 ∉ lixo) (hn : lixo.length < n) :
    ((c = 100 ∨ c = 68) → dir = .NULL →
      iteracao n s = some (.continua,
        { salaAtual := s.salaAtual, stdin := depois,
          stdout := (anunciar nome esq dir s).stdout ++ [.semCaminhoDireita] }) ∧
      explorarLaco (n + 1) s = explorarLaco n
        { salaAtual := s.salaAtual, stdin := depois,
          stdout := (anunciar nome esq dir s).stdout ++ [.semCaminhoDireita] }) ∧
    ((c = 101 ∨ c = 69) → esq = .NULL →
      iteracao n s = some (.continua,
        { salaAtual := s.salaAtual, stdin := depois,
          stdout := (anunciar nome esq dir s).stdout ++ [.semCaminhoEsquerda] }) ∧
      explorarLaco (n + 1) s = explorarLaco n
        { salaAtual := s.salaAtual, stdin := depois,
          stdout := (anunciar nome esq dir s).stdout ++ [.semCaminhoEsquerda] }) := by
  have hf := folha_false nome esq dir hfolha
  constructor
  · intro hc hdir
    have hcl : classificar c = .direita := by
      rcases hc with h | h <;> subst h <;> rfl
    have hnav : navegar esq dir c { anunciar nome esq dir s with stdin := resto }
        = (.continua, printf { anunciar nome esq dir s with stdin := resto }
            .semCaminhoDireita) := by
      unfold navegar
      rw [hcl, hdir]
    have hit : iteracao n s = some (.continua,
        { salaAtual := s.salaAtual, stdin := depois,
          stdout := (anunciar nome esq dir s).stdout ++ [.semCaminhoDireita] }) := by
      rw [iteracao_continua s _ nome esq dir c resto lixo depois n hsala hf hscanf
        hnav hlinha hlixo hn]
      simp [printf, anunciar_salaAtual]
    exact ⟨hit, explorarLaco_continua n s _ hit⟩
  · intro hc hesq
    have hcl : classificar c = .esquerda := by
      rcases hc with h | h <;> subst h <;> rfl
    have hnav : navegar esq dir c { anunciar nome esq dir s with stdin := resto }
        = (.continua, printf { anunciar nome esq dir s with stdin := resto }
            .semCaminhoEsquerda) := by
      unfold navegar
      rw [hcl, hesq]
    have hit : iteracao n s = some (.continua,
        { salaAtual := s.salaAtual, stdin := depois,
          stdout := (anunciar nome esq dir s).stdout ++ [.semCaminhoEsquerda] }) := by
      rw [iteracao_continua s _ nome esq dir c resto lixo depois n hsala hf hscanf
        hnav hlinha hlixo hn]
      simp [printf, anunciar_salaAtual]
    exact ⟨hit, explorarLaco_continua n s _ hit⟩

/-- At "Biblioteca", which has no right path, the line "D" changes nothing but
the output; at "Sala de Jantar", which has no left path, so does the line "e". -/
theorem iteracao_sem_caminho_witness :
    (iteracao 1 ⟨mansao.em [.direita], ascii "D\ne\n", []⟩ = some (.continua,
        { salaAtual := mansao.em [.direita], stdin := ascii "e\n",
          stdout := [.voceEstaEm (ascii "Biblioteca"), .escolhaCaminho,
            .opcaoEsquerda (ascii "Sala de Jantar"), .opcaoSair, .semCaminhoDireita] })) ∧
    (iteracao 1 ⟨mansao.em [.direita, .esquerda], ascii "e\n", []⟩ = some (.continua,
        { salaAtual := mansao.em [.direita, .esquerda], stdin := [],
          stdout := [.voceEstaEm (ascii "Sala de Jantar"), .escolhaCaminho,
            .opcaoDireita (ascii "Jardim de Inverno"), .opcaoSair, .semCaminhoEsquerda] })) :=
  ⟨((iteracao_sem_caminho ⟨mansao.em [.direita], ascii "D\ne\n", []⟩ (ascii "Biblioteca")
      (mansao.em [.direita, .esquerda]) .NULL 68 (ascii "\ne\n") [] (ascii "e\n") 1
      rfl (by decide) (by decide) (by decide) (by decide) (by decide)).1
      (Or.inr rfl) rfl).1,
   ((iteracao_sem_caminho ⟨mansao.em [.direita, .esquerda], ascii "e\n", []⟩
      (ascii "Sala de Jantar") .NULL (folha "Jardim de Inverno") 101 (ascii "\n") [] [] 1
      rfl (by decide) (by decide) (by decide) (by decide) (by decide)).2
      (Or.inl rfl) rfl).1⟩

/-- C3: at a room that is not a leaf, a turn that reads a character other than
e, E, d, D, s, S leaves `salaAtual` where it is and prints the "option not
recognised" message and no end-of-journey or exit message; the input loses the
white space before the character, the character and the rest of its line with
the newline, and the loop goes on from the same room. -/
theorem iteracao_invalida (s : Estado) (nome : Nome) (esq dir : Sala) (c : Nat)
    (resto lixo depois : List Nat) (n : Nat)
    (hsala : s.salaAtual = .mk nome esq dir)
    (hfolha : (Sala.mk nome esq dir).folha = false)
    (hscanf : scanf s.stdin = (some c, resto))
    (hc : c ≠ 101 ∧ c ≠ 69 ∧ c ≠ 100 ∧ c ≠ 68 ∧ c ≠ 115 ∧ c ≠ 83)
    (hlinha : resto = lixo ++ 10 :: depois) (hlixo : 10 ∉ lixo) (hn : lixo.length < n) :
    iteracao n s = some (.continua,
        { salaAtual := s.salaAtual, stdin := depois,
          stdout := (anunciar nome esq dir s).stdout ++ [.opcaoNaoReconhecida] }) ∧
    explorarLaco (n + 1) s = explorarLaco n
        { salaAtual := s.salaAtual, stdin := depois,
          stdout := (anunciar nome esq dir s).stdout ++ [.opcaoNaoReconhecida] } ∧
    (∃ novas, (anunciar nome esq dir s).stdout ++ [.opcaoNaoReconhecida] = s.stdout ++ novas ∧
      ∀ m ∈ novas, m.terminal = false) ∧
    (∃ brancos, s.stdin = brancos ++ c :: lixo ++ 10 :: depois ∧
      ∀ b ∈ brancos, isspace b = true) := by
  have hf := folha_false nome esq dir hfolha
  have hcl : classificar c = .invalida := (classificar_invalida_iff c).mpr hc
  have hnav : navegar esq dir c { anunciar nome esq dir s with stdin := resto }
      = (.continua, printf { anunciar nome esq dir s with stdin := resto }
          .opcaoNaoReconhecida) := by
    unfold navegar
    rw [hcl]
  have hit : iteracao n s = some (.continua,
      { salaAtual := s.salaAtual, stdin := depois,
        stdout := (anunciar nome esq dir s).stdout ++ [.opcaoNaoReconhecida] }) := by
    rw [iteracao_continua s _ nome esq dir c resto lixo depois n hsala hf hscanf
      hnav hlinha hlixo hn]
    simp [printf, anunciar_salaAtual]
  refine ⟨hit, explorarLaco_continua n s _ hit, ?_, ?_⟩
  · obtain ⟨novas, h1, h2⟩ := anunciar_stdout nome esq dir s
    refine ⟨novas ++ [.opcaoNaoReconhecida], by simp [h1], ?_⟩
    intro m hm
    rcases List.mem_append.mp hm with h | h
    · exact h2 m h
    · have : m = .opcaoNaoReconhecida := by simpa using h
      subst this
      rfl
  · obtain ⟨brancos, h1, h2, _⟩ := scanf_some s.stdin c resto hscanf
    exact ⟨brancos, by simp [h1, hlinha], h2⟩

/-- At the hall, the line "  xyz" is thrown away whole and the hall stays the
current room. -/
theorem iteracao_invalida_witness :
    iteracao 3 ⟨mansao, ascii "  xyz\ne\n", []⟩ = some (.continua,
        { salaAtual := mansao, stdin := ascii "e\n",
          stdout := [.voceEstaEm (ascii "Hall de Entrada"), .escolhaCaminho,
            .opcaoEsquerda (ascii "Sala de Estar"), .opcaoDireita (ascii "Biblioteca"),
            .opcaoSair, .opcaoNaoReconhecida] }) :=
  (iteracao_invalida ⟨mansao, ascii "  xyz\ne\n", []⟩ (ascii "Hall de Entrada")
      (mansao.filho .esquerda) (mansao.filho .direita) 120 (ascii "yz\ne\n") (ascii "yz")
      (ascii "e\n") 3 rfl (by decide) (by decide) (by decide) (by decide) (by decide)
      (by decide)).1

/-- C4: at a room that is not a leaf, whichever of its paths are there, reading
's' or 'S' prints the exit message and ends `explorarSalas` at once:
`salaAtual` is unchanged and the input keeps everything after that
character, the rest of its line included. -/
theorem explorarSalas_sair (s : Estado) (nome : Nome) (esq dir : Sala) (c : Nat)
    (resto : List Nat) (n : Nat)
    (hsala : s.salaAtual = .mk nome esq dir)
    (hfolha : (Sala.mk nome esq dir).folha = false)
    (hscanf : scanf s.stdin = (some c, resto))
    (hc : c = 115 ∨ c = 83) :
    iteracao n s = some (.para,
        { salaAtual := s.salaAtual, stdin := resto,
          stdout := (anunciar nome esq dir s).stdout ++ [.saindo] }) ∧
    explorarSalas (n + 1) s = some
        { salaAtual := s.salaAtual, stdin := resto,
          stdout := (anunciar nome esq dir s).stdout ++ [.saindo] } ∧
    (∃ brancos, s.stdin = brancos ++ c :: resto ∧ ∀ b ∈ brancos, isspace b = true) := by
  have hf := folha_false nome esq dir hfolha
  have hcl : classificar c = .sair := (classificar_sair_iff c).mpr hc
  have hnav : navegar esq dir c { anunciar nome esq dir s with stdin := resto }
      = (.para, printf { anunciar nome esq dir s with stdin := resto } .saindo) := by
    unfold navegar
    rw [hcl]
  have hit : iteracao n s = some (.para,
      { salaAtual := s.salaAtual, stdin := resto,
        stdout := (anunciar nome esq dir s).stdout ++ [.saindo] }) := by
    rw [iteracao_para s _ nome esq dir c resto n hsala hf hscanf hnav]
    simp [printf, anunciar_salaAtual]
  refine ⟨hit, ?_, ?_⟩
  · rw [explorarSalas_laco (n + 1) s nome esq dir hsala]
    exact explorarLaco_para n s _ hit
  · obtain ⟨brancos, h1, h2, _⟩ := scanf_some s.stdin c resto hscanf
    exact ⟨brancos, h1, h2⟩

/-- At "Biblioteca" the line "S e" ends the exploration; " e" and the next line
stay in the input. -/
theorem explorarSalas_sair_witness :
    explorarSalas 1 ⟨mansao.em [.direita], ascii "S e\nd\n", []⟩ = some
        { salaAtual := mansao.em [.direita], stdin := ascii " e\nd\n",
          stdout := [.voceEstaEm (ascii "Biblioteca"), .escolhaCaminho,
            .opcaoEsquerda (ascii "Sala de Jantar"), .opcaoSair, .saindo] } :=
  (explorarSalas_sair ⟨mansao.em [.direita], ascii "S e\nd\n", []⟩ (ascii "Biblioteca")
      (mansao.em [.direita, .esquerda]) .NULL 83 (ascii " e\nd\n") 0
      rfl (by decide) (by decide) (by decide)).2.1

/-- C5: when `salaAtual` is a room with no path at all (a map of one room
included), `explorarSalas` announces the room, prints the end-of-journey
message and returns in that very turn; the input is left as it was, whatever it
holds. -/
theorem explorarSalas_folha (nome : Nome) (entrada : List Nat) (saida : List Saida) (n : Nat) :
    iteracao n ⟨.mk nome .NULL .NULL, entrada, saida⟩ = some (.para,
        ⟨.mk nome .NULL .NULL, entrada, saida ++ [.voceEstaEm nome, .fimDaJornada]⟩) ∧
    explorarSalas (n + 1) ⟨.mk nome .NULL .NULL, entrada, saida⟩ = some
        ⟨.mk nome .NULL .NULL, entrada, saida ++ [.voceEstaEm nome, .fimDaJornada]⟩ := by
  have hit : iteracao n ⟨.mk nome .NULL .NULL, entrada, saida⟩ = some (.para,
      ⟨.mk nome .NULL .NULL, entrada, saida ++ [.voceEstaEm nome, .fimDaJornada]⟩) := by
    simp [iteracao, Sala.isNULL, printf]
  exact ⟨hit, explorarLaco_para n _ _ hit⟩

/-- C6: with a `NULL` root `explorarSalas` prints the map error and returns: no
room is announced, no input is read, neither the end-of-journey nor the exit
message is printed; `liberarMapa` on `NULL` frees nothing. -/
theorem explorarSalas_NULL (entrada : List Nat) (saida : List Saida) (n : Nat)
    (pos : Endereco) :
    explorarSalas n ⟨.NULL, entrada, saida⟩ = some ⟨.NULL, entrada, saida ++ [.erroMapa]⟩ ∧
    liberarMapa pos .NULL = [] :=
  ⟨rfl, rfl⟩

/-- C7: the character read falls in exactly one of the four branches, without
regard to case: left for 'e' and 'E', right for 'd' and 'D', exit for 's' and
'S', invalid for every other character; the fold to lower case sends no other
character to 'e', 'd' or 's'. -/
theorem classificar_correto (c : Nat) :
    (classificar c = .esquerda ↔ c = 'e'.toNat ∨ c = 'E'.toNat) ∧
    (classificar c = .direita ↔ c = 'd'.toNat ∨ c = 'D'.toNat) ∧
    (classificar c = .sair ↔ c = 's'.toNat ∨ c = 'S'.toNat) ∧
    (classificar c = .invalida ↔
      c ∉ ['e'.toNat, 'E'.toNat, 'd'.toNat, 'D'.toNat, 's'.toNat, 'S'.toNat]) ∧
    (paraMinuscula c = 'e'.toNat ↔ c = 'e'.toNat ∨ c = 'E'.toNat) ∧
    (paraMinuscula c = 'd'.toNat ↔ c = 'd'.toNat ∨ c = 'D'.toNat) ∧
    (paraMinuscula c = 's'.toNat ↔ c = 's'.toNat ∨ c = 'S'.toNat) := by
  have he : 'e'.toNat = 101 := by decide
  have hE : 'E'.toNat = 69 := by decide
  have hd : 'd'.toNat = 100 := by decide
  have hD : 'D'.toNat = 68 := by decide
  have hs : 's'.toNat = 115 := by decide
  have hS : 'S'.toNat = 83 := by decide
  rw [he, hE, hd, hD, hs, hS]
  have h1 := paraMinuscula_eq_iff c 101 (by omega)
  have h2 := paraMinuscula_eq_iff c 100 (by omega)
  have h3 := paraMinuscula_eq_iff c 115 (by omega)
  refine ⟨classificar_esquerda_iff c, classificar_direita_iff c, classificar_sair_iff c, ?_,
    ?_, ?_, ?_⟩
  · rw [classificar_invalida_iff]
    simp
  · rw [h1]; omega
  · rw [h2]; omega
  · rw [h3]; omega

/-! ## The end of the input -/

theorem limparBuffer_orcamento (m : Nat) :
    ∀ (n : Nat) (entrada resto : List Nat), limparBuffer m entrada = some resto →
      limparBuffer n entrada = none ∨ limparBuffer n entrada = some resto := by
  induction m with
  | zero => intro n entrada resto h; simp [limparBuffer] at h
  | succ m ih =>
    intro n entrada resto h
    cases n with
    | zero => exact Or.inl rfl
    | succ n =>
      cases entrada with
      | nil =>
        have h1 : limparBuffer m [] = some resto := by
          simpa [limparBuffer, getchar, EOF] using h
        have h2 : limparBuffer (n + 1) [] = limparBuffer n [] := by
          simp [limparBuffer, getchar, EOF]
        rw [h2]
        exact ih n [] resto h1
      | cons c cs =>
        by_cases hc : c = 10
        · subst hc
          have h1 : cs = resto := by simpa [limparBuffer, getchar] using h
          right
          simp [limparBuffer, getchar, h1]
        · have hci : (c : Int) ≠ 10 := by exact_mod_cast hc
          have h1 : limparBuffer m cs = some resto := by
            simpa [limparBuffer, getchar, hci] using h
          have h2 : limparBuffer (n + 1) (c :: cs) = limparBuffer n cs := by
            simp [limparBuffer, getchar, hci]
          rw [h2]
          exact ih n cs resto h1

theorem descartarLinha_orcamento (m n : Nat) (s : Estado) (r : Controle × Estado)
    (h : descartarLinha m s = some r) :
    descartarLinha n s = none ∨ descartarLinha n s = some r := by
  unfold descartarLinha at h ⊢
  cases hm : limparBuffer m s.stdin with
  | none => simp [hm] at h
  | some resto =>
    rw [hm] at h
    rcases limparBuffer_orcamento m n s.stdin resto hm with h1 | h1
    · left; rw [h1]
    · right; rw [h1]; exact h

theorem iteracao_orcamento (m n : Nat) (s : Estado) (r : Controle × Estado)
    (h : iteracao m s = some r) : iteracao n s = none ∨ iteracao n s = some r := by
  unfold iteracao at h ⊢
  cases hs : s.salaAtual with
  | NULL =>
    simp only [hs] at h ⊢
    exact Or.inr h
  | mk nome esq dir =>
    simp only [hs] at h ⊢
    split
    · rename_i hf
      rw [if_pos hf] at h
      exact Or.inr h
    · rename_i hf
      rw [if_neg hf] at h
      split
      · rename_i resto hsc
        simp only [hsc] at h
        exact descartarLinha_orcamento m n _ r h
      · rename_i c resto hsc
        simp only [hsc] at h
        split
        · rename_i s4 hnav
          simp only [hnav] at h
          exact Or.inr h
        · rename_i s4 hnav
          simp only [hnav] at h
          exact descartarLinha_orcamento m n _ r h

theorem scanf_none (entrada resto : List Nat) (h : scanf entrada = (none, resto)) :
    resto = [] := by
  induction entrada with
  | nil =>
    have := congrArg (fun x => x.2) h
    simpa [scanf] using this.symm
  | cons a as ih =>
    by_cases ha : isspace a = true
    · rw [scanf, if_pos ha] at h
      exact ih h
    · rw [scanf, if_neg ha] at h
      simp at h

theorem descartarLinha_sem_linha (s : Estado) (h : 10 ∉ s.stdin) (n : Nat) :
    descartarLinha n s = none := by
  unfold descartarLinha
  rw [limparBuffer_sem_linha s.stdin h n]

theorem iteracao_sem_fim (s : Estado) (nome : Nome) (esq dir : Sala)
    (hsala : s.salaAtual = .mk nome esq dir)
    (hfolha : (Sala.mk nome esq dir).folha = false)
    (hfim : fimDaEntrada s = true) (n : Nat) : iteracao n s = none := by
  have hf := folha_false nome esq dir hfolha
  unfold fimDaEntrada at hfim
  rcases hsc : scanf s.stdin with ⟨tok, resto⟩
  rw [hsc] at hfim
  have hscanf2 : scanf (exibirOpcoes esq dir (printf s (.voceEstaEm nome))).stdin
      = (tok, resto) := by
    rw [exibirOpcoes_stdin]
    exact hsc
  cases tok with
  | none =>
    have hr := scanf_none s.stdin resto hsc
    subst hr
    unfold iteracao
    simp only [hsala, hf, hscanf2]
    exact descartarLinha_sem_linha _ (by simp [printf]) n
  | some c =>
    simp only [Bool.and_eq_true, bne_iff_ne, ne_eq, decide_eq_true_eq] at hfim
    obtain ⟨hcl, h3⟩ := hfim
    have hst := navegar_stdin esq dir c
      { exibirOpcoes esq dir (printf s (.voceEstaEm nome)) with stdin := resto }
    rcases hnav : navegar esq dir c
      { exibirOpcoes esq dir (printf s (.voceEstaEm nome)) with stdin := resto }
      with ⟨ctl, s4⟩
    rw [hnav] at hst
    cases ctl with
    | continua =>
      unfold iteracao
      simp only [hsala, hf, hscanf2, hnav]
      exact descartarLinha_sem_linha s4 (by rw [hst]; exact h3) n
    | para =>
      exfalso
      unfold navegar at hnav
      revert hnav
      cases hc : classificar c <;> cases esq <;> cases dir <;> simp_all

theorem explorarLaco_sem_fim (s : Estado) (nome : Nome) (esq dir : Sala)
    (hsala : s.salaAtual = .mk nome esq dir)
    (hfolha : (Sala.mk nome esq dir).folha = false)
    (hfim : fimDaEntrada s = true) (n : Nat) : explorarLaco n s = none := by
  cases n with
  | zero => rfl
  | succ n => simp [explorarLaco, iteracao_sem_fim s nome esq dir hsala hfolha hfim n]

/-- A loop that never ends from the state one turn leads to never ends from the
state before that turn. -/
theorem explorarLaco_sem_fim_passo (m : Nat) (s s1 : Estado)
    (hit : iteracao m s = some (.continua, s1))
    (h : ∀ n, explorarLaco n s1 = none) (n : Nat) : explorarLaco n s = none := by
  cases n with
  | zero => rfl
  | succ n =>
    rcases iteracao_orcamento m n s _ hit with h1 | h1
    · simp [explorarLaco, h1]
    · simp [explorarLaco, h1, h n]

theorem turnos_salaAtual (m k : Nat) (s s1 : Estado) (nome : Nome) (esq dir : Sala)
    (hrun : turnos m k s = some s1) (hsala : s1.salaAtual = .mk nome esq dir) :
    s.salaAtual ≠ .NULL := by
  intro hnull
  cases k with
  | zero =>
    simp only [turnos, Option.some.injEq] at hrun
    subst hrun
    rw [hnull] at hsala
    cases hsala
  | succ k =>
    have hit : iteracao m s = some (.para, s) := by
      unfold iteracao
      rw [hnull]
    simp [turnos, hit] at hrun

theorem explorarLaco_sem_fim_turnos (m k : Nat) :
    ∀ (s s1 : Estado), turnos m k s = some s1 → (∀ n, explorarLaco n s1 = none) →
      ∀ n, explorarLaco n s = none := by
  induction k with
  | zero =>
    intro s s1 hrun h
    simp only [turnos, Option.some.injEq] at hrun
    subst hrun
    exact h
  | succ k ih =>
    intro s s1 hrun h
    rcases hit : iteracao m s with _ | ⟨ctl, s2⟩
    · simp [turnos, hit] at hrun
    · cases ctl with
      | para => simp [turnos, hit] at hrun
      | continua =>
        simp only [turnos, hit] at hrun
        exact explorarLaco_sem_fim_passo m s s2 hit (ih s2 s1 hrun h)

/-- The exploration never returns once the input ends at a room that is not a
leaf, however many turns led there. -/
theorem explorarSalas_sem_fim (m k : Nat) (s s1 : Estado) (nome : Nome) (esq dir : Sala)
    (hrun : turnos m k s = some s1)
    (hsala : s1.salaAtual = .mk nome esq dir)
    (hfolha : (Sala.mk nome esq dir).folha = false)
    (hfim : fimDaEntrada s1 = true) (n : Nat) : explorarSalas n s = none := by
  have hnn := turnos_salaAtual m k s s1 nome esq dir hrun hsala
  have hlaco : explorarSalas n s = explorarLaco n s := by
    cases hs : s.salaAtual with
    | NULL => exact absurd hs hnn
    | mk a b c => exact explorarSalas_laco n s a b c hs
  rw [hlaco]
  exact explorarLaco_sem_fim_turnos m k s s1 hrun
    (explorarLaco_sem_fim s1 nome esq dir hsala hfolha hfim) n

/-- C8, as the code has it: once the input ends at a room that is not a leaf,
at the read of the choice or while the rest of a line is read away after a
choice other than the exit, `explorarSalas` never returns, whatever the number
of turns before that point: the loop `while (getchar() != 10)` reads
end-of-input for ever, and no budget of steps is enough. -/
theorem explorarSalas_entrada_esgotada (m k : Nat) (s s1 : Estado) (nome : Nome)
    (esq dir : Sala)
    (hrun : turnos m k s = some s1)
    (hsala : s1.salaAtual = .mk nome esq dir)
    (hfolha : (Sala.mk nome esq dir).folha = false)
    (hfim : fimDaEntrada s1 = true) :
    (∀ n, iteracao n s1 = none) ∧ (∀ n, explorarSalas n s = none) :=
  ⟨iteracao_sem_fim s1 nome esq dir hsala hfolha hfim,
   explorarSalas_sem_fim m k s s1 nome esq dir hrun hsala hfolha hfim⟩

/-- From the hall, the input "e", newline, "x" moves to "Sala de Estar" and then
ends inside the second line: the exploration returns for no budget. -/
theorem explorarSalas_entrada_esgotada_witness :
    ¬ ∃ n, (explorarSalas n ⟨mansao, ascii "e\nx", []⟩).isSome = true :=
  fun ⟨n, hn⟩ => by
    have h := (explorarSalas_entrada_esgotada 1 1 ⟨mansao, ascii "e\nx", []⟩
      ⟨mansao.em [.esquerda], ascii "x",
        [.voceEstaEm (ascii "Hall de Entrada"), .escolhaCaminho,
          .opcaoEsquerda (ascii "Sala de Estar"), .opcaoDireita (ascii "Biblioteca"),
          .opcaoSair]⟩
      (ascii "Sala de Estar") (mansao.em [.esquerda, .esquerda])
      (mansao.em [.esquerda, .direita]) (by decide) (by decide) (by decide) (by decide)).2 n
    rw [h] at hn
    exact absurd hn (by decide)

/-- C8, as stated, fails: with an empty input, and with the input "d" that has
no newline, the exploration started at the hall returns for no budget. -/
theorem explorarSalas_nao_termina :
    (¬ ∃ n, (explorarSalas n ⟨mansao, [], []⟩).isSome = true) ∧
    (¬ ∃ n, (explorarSalas n ⟨mansao, ascii "d", []⟩).isSome = true) := by
  constructor
  · rintro ⟨n, hn⟩
    rw [explorarSalas_sem_fim 0 0 ⟨mansao, [], []⟩ ⟨mansao, [], []⟩ (ascii "Hall de Entrada")
      (mansao.em [.esquerda]) (mansao.em [.direita]) (by decide) (by decide) (by decide)
      (by decide) n] at hn
    exact absurd hn (by decide)
  · rintro ⟨n, hn⟩
    rw [explorarSalas_sem_fim 0 0 ⟨mansao, ascii "d", []⟩ ⟨mansao, ascii "d", []⟩
      (ascii "Hall de Entrada") (mansao.em [.esquerda]) (mansao.em [.direita]) (by decide)
      (by decide) (by decide) (by decide) n] at hn
    exact absurd hn (by decide)

/-! ## liberarMapa -/

theorem em_NULL (p : Endereco) : Sala.NULL.em p = .NULL := by
  induction p with
  | nil => rfl
  | cons l ls ih => simpa [Sala.em, Sala.filho] using ih

theorem em_append (t : Sala) (p q : Endereco) : t.em (p ++ q) = (t.em p).em q := by
  induction p generalizing t with
  | nil => rfl
  | cons l ls ih => simpa [Sala.em] using ih (t.filho l)

/-- The rooms `liberarMapa` frees are the rooms found below the pointer. -/
theorem mem_liberarMapa (t : Sala) :
    ∀ (pos p : Endereco), p ∈ liberarMapa pos t ↔ ∃ q, p = pos ++ q ∧ t.em q ≠ .NULL := by
  induction t with
  | NULL =>
    intro pos p
    simp [liberarMapa, em_NULL]
  | mk nome esq dir ihe ihd =>
    intro pos p
    simp only [liberarMapa, List.mem_append, List.mem_singleton, ihe, ihd]
    constructor
    · rintro ((⟨q, hq, hne⟩ | ⟨q, hq, hne⟩) | h)
      · exact ⟨.esquerda :: q, by simp [hq], by simpa [Sala.em, Sala.filho] using hne⟩
      · exact ⟨.direita :: q, by simp [hq], by simpa [Sala.em, Sala.filho] using hne⟩
      · exact ⟨[], by simp [h], by simp [Sala.em]⟩
    · rintro ⟨q, hq, hne⟩
      cases q with
      | nil => right; simpa using hq
      | cons l ls =>
        cases l with
        | esquerda =>
          left; left
          exact ⟨ls, by simp [hq], by simpa [Sala.em, Sala.filho] using hne⟩
        | direita =>
          left; right
          exact ⟨ls, by simp [hq], by simpa [Sala.em, Sala.filho] using hne⟩

theorem liberarMapa_nodup (t : Sala) : ∀ pos : Endereco, (liberarMapa pos t).Nodup := by
  induction t with
  | NULL => intro pos; simp [liberarMapa]
  | mk nome esq dir ihe ihd =>
    intro pos
    simp only [liberarMapa]
    rw [List.nodup_append, List.nodup_append]
    refine ⟨⟨ihe _, ihd _, ?_⟩, List.nodup_singleton pos, ?_⟩
    · intro x hx hy
      obtain ⟨q1, h1, _⟩ := (mem_liberarMapa esq _ x).mp hx
      obtain ⟨q2, h2, _⟩ := (mem_liberarMapa dir _ x).mp hy
      rw [h1] at h2
      simp at h2
    · intro x hx hy
      have hpos : x = pos := by simpa using hy
      rcases List.mem_append.mp hx with h | h
      · obtain ⟨q, hq, _⟩ := (mem_liberarMapa esq _ x).mp h
        rw [hpos] at hq
        have := congrArg List.length hq
        simp at this
      · obtain ⟨q, hq, _⟩ := (mem_liberarMapa dir _ x).mp h
        rw [hpos] at hq
        have := congrArg List.length hq
        simp at this

theorem liberarMapa_length (t : Sala) : ∀ pos : Endereco, (liberarMapa pos t).length = t.contar := by
  induction t with
  | NULL => intro pos; rfl
  | mk nome esq dir ihe ihd =>
    intro pos
    simp only [liberarMapa, Sala.contar, List.length_append, List.length_singleton, ihe, ihd]

theorem count_nodup_mem (p : Endereco) :
    ∀ l : List Endereco, l.Nodup → p ∈ l → l.count p = 1 := by
  intro l
  induction l with
  | nil => intro _ h; simp at h
  | cons x xs ih =>
    intro hnd hmem
    obtain ⟨hx, hxs⟩ := List.nodup_cons.mp hnd
    rcases List.mem_cons.mp hmem with h | h
    · subst h
      rw [List.count_cons_self, List.count_eq_zero.mpr hx]
    · have hne : p ≠ x := fun e => hx (e ▸ h)
      rw [List.count_cons_of_ne hne, ih hxs h]

/-- C9: on a map built room by room, `liberarMapa` frees every room below the
root exactly once: each position that holds a room is passed to `free` once,
nothing else is, and the number of `free` calls is the number of rooms created;
for a `NULL` root nothing is freed. -/
theorem liberarMapa_uma_vez (raiz : Sala) :
    (∀ p : Endereco, (liberarMapa [] raiz).count p = if raiz.em p = .NULL then 0 else 1) ∧
    (liberarMapa [] raiz).Nodup ∧
    (liberarMapa [] raiz).length = raiz.contar ∧
    liberarMapa [] .NULL = [] := by
  refine ⟨?_, liberarMapa_nodup raiz [], liberarMapa_length raiz [], rfl⟩
  intro p
  have hmem := mem_liberarMapa raiz [] p
  split_ifs with h
  · rw [List.count_eq_zero]
    intro hp
    obtain ⟨q, hq, hne⟩ := hmem.mp hp
    simp only [List.nil_append] at hq
    subst hq
    exact hne h
  · exact count_nodup_mem p _ (liberarMapa_nodup raiz []) (hmem.mpr ⟨p, by simp, h⟩)

theorem em_cons_ne_NULL (t : Sala) (l : Lado) (ls : Endereco) (h : t.em (l :: ls) ≠ .NULL) :
    ∃ nome esq dir, t = .mk nome esq dir := by
  cases t with
  | NULL => exact absurd (em_NULL (l :: ls)) h
  | mk nome esq dir => exact ⟨nome, esq, dir, rfl⟩

/-- The room found at `q` below the pointer is freed before the room the
pointer is at. -/
theorem liberarMapa_antes_raiz (t : Sala) (pos q : Endereco) (hq : q ≠ [])
    (h : t.em q ≠ .NULL) :
    ∃ l1 l2, liberarMapa pos t = l1 ++ [pos ++ q] ++ l2 ++ [pos] := by
  cases q with
  | nil => exact absurd rfl hq
  | cons l ls =>
    obtain ⟨nome, esq, dir, rfl⟩ := em_cons_ne_NULL t l ls h
    cases l with
    | esquerda =>
      have hm : pos ++ .esquerda :: ls ∈ liberarMapa (pos ++ [.esquerda]) esq :=
        (mem_liberarMapa esq _ _).mpr ⟨ls, by simp, by simpa [Sala.em, Sala.filho] using h⟩
      obtain ⟨a, b, hab⟩ := List.append_of_mem hm
      exact ⟨a, b ++ liberarMapa (pos ++ [.direita]) dir, by simp [liberarMapa, hab]⟩
    | direita =>
      have hm : pos ++ .direita :: ls ∈ liberarMapa (pos ++ [.direita]) dir :=
        (mem_liberarMapa dir _ _).mpr ⟨ls, by simp, by simpa [Sala.em, Sala.filho] using h⟩
      obtain ⟨a, b, hab⟩ := List.append_of_mem hm
      exact ⟨liberarMapa (pos ++ [.esquerda]) esq ++ a, b, by simp [liberarMapa, hab]⟩

/-- A room is freed after every room below it. -/
theorem liberarMapa_antes (p : Endereco) :
    ∀ (t : Sala) (pos q : Endereco), q ≠ [] → t.em (p ++ q) ≠ .NULL →
      ∃ l1 l2 l3, liberarMapa pos t = l1 ++ [pos ++ p ++ q] ++ l2 ++ [pos ++ p] ++ l3 := by
  induction p with
  | nil =>
    intro t pos q hq h
    obtain ⟨l1, l2, h12⟩ := liberarMapa_antes_raiz t pos q hq (by simpa using h)
    exact ⟨l1, l2, [], by simp [h12]⟩
  | cons l ls ih =>
    intro t pos q hq h
    obtain ⟨nome, esq, dir, rfl⟩ := em_cons_ne_NULL t l (ls ++ q) (by simpa using h)
    cases l with
    | esquerda =>
      obtain ⟨l1, l2, l3, h123⟩ := ih esq (pos ++ [.esquerda]) q hq
        (by simpa [Sala.em, Sala.filho] using h)
      exact ⟨l1, l2, l3 ++ liberarMapa (pos ++ [.direita]) dir ++ [pos],
        by simp [liberarMapa, h123]⟩
    | direita =>
      obtain ⟨l1, l2, l3, h123⟩ := ih dir (pos ++ [.direita]) q hq
        (by simpa [Sala.em, Sala.filho] using h)
      exact ⟨liberarMapa (pos ++ [.esquerda]) esq ++ l1, l2, l3 ++ [pos],
        by simp [liberarMapa, h123]⟩

/-- C10: `liberarMapa` frees in post-order: the rooms of the left path, then
those of the right path, then the room itself.  So every room is freed after
every room below it, its two children included, and the root is freed last. -/
theorem liberarMapa_pos_ordem (raiz : Sala) :
    (∀ (pos : Endereco) (nome : Nome) (esq dir : Sala),
      liberarMapa pos (.mk nome esq dir) =
        liberarMapa (pos ++ [.esquerda]) esq ++ liberarMapa (pos ++ [.direita]) dir ++ [pos]) ∧
    (∀ p q : Endereco, q ≠ [] → raiz.em (p ++ q) ≠ .NULL →
      ∃ l1 l2 l3, liberarMapa [] raiz = l1 ++ [p ++ q] ++ l2 ++ [p] ++ l3) ∧
    (raiz ≠ .NULL → (liberarMapa [] raiz).getLast? = some []) := by
  refine ⟨fun _ _ _ _ => rfl, ?_, ?_⟩
  · intro p q hq h
    simpa using liberarMapa_antes p raiz [] q hq h
  · intro h
    cases raiz with
    | NULL => exact absurd rfl h
    | mk nome esq dir => simp [liberarMapa]

/-- In the mansion "Dispensa" is freed before "Sala de Estar", two levels above
it, and the hall is freed last. -/
theorem liberarMapa_pos_ordem_witness :
    (∃ l1 l2 l3, liberarMapa [] mansao =
      l1 ++ [[.esquerda] ++ [.esquerda, .esquerda]] ++ l2 ++ [[.esquerda]] ++ l3) ∧
    (liberarMapa [] mansao).getLast? = some [] :=
  ⟨(liberarMapa_pos_ordem mansao).2.1 [.esquerda] [.esquerda, .esquerda] (by decide)
      (by decide),
   (liberarMapa_pos_ordem mansao).2.2 (by decide)⟩

/-! ## criarSala and the map of main -/

theorem snprintf_30 (nome : Nome) :
    snprintf 30 nome = (if nome.length ≤ 29 then nome else nome.take 29) ∧
    snprintf 30 nome <+: nome ∧ (snprintf 30 nome).length ≤ 29 := by
  have h : snprintf 30 nome = nome.take 29 := rfl
  rw [h]
  refine ⟨?_, List.take_prefix 29 nome, ?_⟩
  · split_ifs with hl
    · exact List.take_of_length_le hl
    · rfl
  · simp

/-- C11: for every name, `criarSala` with memory at hand returns a room with no
left and no right path whose name is the name given when that has at most 29
bytes, and its first 29 bytes otherwise; the name kept is a prefix of the name
given and has at most 29 bytes.  No name is refused. -/
theorem criarSala_nome (nome : Nome) :
    ∃ guardado, criarSala true nome = some (.mk guardado .NULL .NULL) ∧
      guardado = (if nome.length ≤ 29 then nome else nome.take 29) ∧
      guardado <+: nome ∧ guardado.length ≤ 29 := by
  obtain ⟨h1, h2, h3⟩ := snprintf_30 nome
  exact ⟨snprintf 30 nome, rfl, h1, h2, h3⟩

theorem atribuirSala_none (pos : Endereco) (malloc : Bool) (nome : Nome) :
    atribuirSala none pos malloc nome = none := rfl

theorem atribuirSala_false (hall : Option Sala) (pos : Endereco) (nome : Nome) :
    atribuirSala hall pos false nome = none := by
  cases hall <;> rfl

/-- The map `main` builds is the mansion when the nine allocations give memory,
and there is no map otherwise. -/
theorem montarMapa_eq (malloc : Nat → Bool) :
    montarMapa malloc =
      if malloc 0 && malloc 1 && malloc 2 && malloc 3 && malloc 4 && malloc 5 && malloc 6 &&
        malloc 7 && malloc 8 then some mansao else none := by
  unfold montarMapa
  cases h0 : malloc 0
  · simp [criarSala, atribuirSala_none]
  cases h1 : malloc 1
  · simp [atribuirSala_false, atribuirSala_none]
  cases h2 : malloc 2
  · simp [atribuirSala_false, atribuirSala_none]
  cases h3 : malloc 3
  · simp [atribuirSala_false, atribuirSala_none]
  cases h4 : malloc 4
  · simp [atribuirSala_false, atribuirSala_none]
  cases h5 : malloc 5
  · simp [atribuirSala_false, atribuirSala_none]
  cases h6 : malloc 6
  · simp [atribuirSala_false, atribuirSala_none]
  cases h7 : malloc 7
  · simp [atribuirSala_false, atribuirSala_none]
  cases h8 : malloc 8
  · simp [atribuirSala_false, atribuirSala_none]
  decide

theorem montarMapa_some (malloc : Nat → Bool) (hall : Sala)
    (h : montarMapa malloc = some hall) : hall = mansao := by
  rw [montarMapa_eq] at h
  split_ifs at h
  exact (Option.some.inj h).symm

theorem em_niveis (t : Sala) : ∀ p : Endereco, t.em p ≠ .NULL → p.length < t.niveis := by
  induction t with
  | NULL => intro p h; exact absurd (em_NULL p) h
  | mk nome esq dir ihe ihd =>
    intro p h
    cases p with
    | nil => simp [Sala.niveis]
    | cons l ls =>
      cases l with
      | esquerda =>
        have := ihe ls (by simpa [Sala.em, Sala.filho] using h)
        simp only [Sala.niveis, List.length_cons]
        omega
      | direita =>
        have := ihd ls (by simpa [Sala.em, Sala.filho] using h)
        simp only [Sala.niveis, List.length_cons]
        omega

/-- C14: the map `main` has built when it calls `explorarSalas` is the default
one, every name in full: the hall with "Sala de Estar" on the left and
"Biblioteca" on the right; "Sala de Estar" with "Cozinha" and "Quarto
Principal"; "Biblioteca" with "Sala de Jantar" on the left only; "Cozinha" and
"Quarto Principal" with the leaves "Dispensa" and "Banheiro" on the left only;
"Sala de Jantar" with the leaf "Jardim de Inverno" on the right only.  It is
built whenever the nine allocations give memory. -/
theorem montarMapa_forma (malloc : Nat → Bool) :
    ((∀ k, k < 9 → malloc k = true) → (montarMapa malloc).isSome = true) ∧
    (∀ hall, montarMapa malloc = some hall → hall =
      .mk (ascii "Hall de Entrada")
        (.mk (ascii "Sala de Estar")
          (.mk (ascii "Cozinha") (.mk (ascii "Dispensa") .NULL .NULL) .NULL)
          (.mk (ascii "Quarto Principal") (.mk (ascii "Banheiro") .NULL .NULL) .NULL))
        (.mk (ascii "Biblioteca")
          (.mk (ascii "Sala de Jantar") .NULL (.mk (ascii "Jardim de Inverno") .NULL .NULL))
          .NULL)) := by
  constructor
  · intro h
    rw [montarMapa_eq]
    simp [h]
  · intro hall h
    rw [montarMapa_some malloc hall h]
    rfl

/-- With memory for every room, `main` builds the default map. -/
theorem montarMapa_forma_witness :
    (montarMapa (fun _ => true)).isSome = true ∧
    mansao =
      .mk (ascii "Hall de Entrada")
        (.mk (ascii "Sala de Estar")
          (.mk (ascii "Cozinha") (.mk (ascii "Dispensa") .NULL .NULL) .NULL)
          (.mk (ascii "Quarto Principal") (.mk (ascii "Banheiro") .NULL .NULL) .NULL))
        (.mk (ascii "Biblioteca")
          (.mk (ascii "Sala de Jantar") .NULL (.mk (ascii "Jardim de Inverno") .NULL .NULL))
          .NULL) :=
  ⟨(montarMapa_forma (fun _ => true)).1 (fun _ _ => rfl),
   (montarMapa_forma (fun _ => true)).2 mansao (by decide)⟩

/-- C15, as the code has it: the map `main` builds has nine rooms on four
levels: the hall on level 0 and no room below level 3, where "Dispensa",
"Banheiro" and "Jardim de Inverno" are. -/
theorem montarMapa_tamanho (malloc : Nat → Bool) (hall : Sala)
    (h : montarMapa malloc = some hall) :
    hall.contar = 9 ∧ hall.niveis = 4 ∧
    (∀ p : Endereco, hall.em p ≠ .NULL → p.length ≤ 3) ∧
    (hall.em [.esquerda, .esquerda, .esquerda]).folha = true ∧
    (hall.em [.esquerda, .direita, .esquerda]).folha = true ∧
    (hall.em [.direita, .esquerda, .direita]).folha = true := by
  rw [montarMapa_some malloc hall h]
  refine ⟨by decide, by decide, ?_, by decide, by decide, by decide⟩
  intro p hp
  have := em_niveis mansao p hp
  have h4 : mansao.niveis = 4 := by decide
  omega

/-- The map built with memory for every room has nine rooms on four levels. -/
theorem montarMapa_tamanho_witness :
    montarMapa (fun _ => true) = some mansao ∧ mansao.contar = 9 ∧ mansao.niveis = 4 :=
  ⟨by decide,
   (montarMapa_tamanho (fun _ => true) mansao (by decide)).1,
   (montarMapa_tamanho (fun _ => true) mansao (by decide)).2.1⟩

/-- C15, as stated, fails: the map `main` builds has nine rooms, which are not
eight. -/
theorem montarMapa_nove_salas :
    ∃ hall, montarMapa (fun _ => true) = some hall ∧ hall.contar = 9 ∧ hall.contar ≠ 8 :=
  ⟨mansao, by decide, by decide, by decide⟩

/-! ## Lines of input -/

theorem scanf_brancos (brancos entrada : List Nat) (h : ∀ b ∈ brancos, isspace b = true) :
    scanf (brancos ++ entrada) = scanf entrada := by
  induction brancos with
  | nil => rfl
  | cons b bs ih =>
    have hb : isspace b = true := h b (by simp)
    have hbs : ∀ x ∈ bs, isspace x = true := fun x hx => h x (by simp [hx])
    rw [List.cons_append, scanf, if_pos hb]
    exact ih hbs

theorem scanf_caractere (c : Nat) (resto : List Nat) (h : isspace c = false) :
    scanf (c :: resto) = (some c, resto) := by
  rw [scanf]
  simp [h]

theorem anunciar_stdout_eq (nome : Nome) (esq dir : Sala) (s : Estado) :
    (anunciar nome esq dir s).stdout = s.stdout ++ .voceEstaEm nome :: listaOpcoes esq dir := by
  cases esq <;> cases dir <;> simp [anunciar, exibirOpcoes, printf, listaOpcoes]

theorem Linha.valida_iff (x : Linha) :
    x.valida = true ↔
      (∀ b ∈ x.brancos, isspace b = true ∧ b ≠ 10) ∧ isspace x.c = false ∧ 10 ∉ x.lixo := by
  simp [Linha.valida, and_assoc]

theorem scanf_linha (x : Linha) (resto : List Nat) (h : x.valida = true) :
    scanf (x.bytes ++ resto) = (some x.c, x.lixo ++ 10 :: resto) := by
  obtain ⟨h1, h2, _⟩ := (Linha.valida_iff x).mp h
  have hb : x.bytes ++ resto = x.brancos ++ (x.c :: (x.lixo ++ 10 :: resto)) := by
    simp [Linha.bytes]
  rw [hb, scanf_brancos _ _ (fun b hb => (h1 b hb).1), scanf_caractere _ _ h2]

/-- A turn on a line that asks for a side on which the room has a room: the
line goes, and the turn ends in that room. -/
theorem iteracao_linha (nome : Nome) (esq dir : Sala) (l : Lado) (x : Linha)
    (resto : List Nat) (saida : List Saida) (n : Nat)
    (hx : x.valida = true) (hc : classificar x.c = l.escolha)
    (hfilho : (Sala.mk nome esq dir).filho l ≠ .NULL) (hn : x.lixo.length < n) :
    iteracao n ⟨.mk nome esq dir, x.bytes ++ resto, saida⟩ = some (.continua,
      ⟨(Sala.mk nome esq dir).filho l, resto,
        saida ++ .voceEstaEm nome :: listaOpcoes esq dir⟩) := by
  obtain ⟨_, _, h3⟩ := (Linha.valida_iff x).mp hx
  have hfolha : (esq.isNULL && dir.isNULL) = false := by
    cases l <;> cases esq <;> cases dir <;> simp_all [Sala.filho, Sala.isNULL]
  have hnav : navegar esq dir x.c
      { anunciar nome esq dir ⟨.mk nome esq dir, x.bytes ++ resto, saida⟩
        with stdin := x.lixo ++ 10 :: resto }
      = (.continua, { anunciar nome esq dir ⟨.mk nome esq dir, x.bytes ++ resto, saida⟩
        with stdin := x.lixo ++ 10 :: resto, salaAtual := (Sala.mk nome esq dir).filho l }) := by
    unfold navegar
    rw [hc]
    cases l with
    | esquerda =>
      cases esq with
      | NULL => exact absurd rfl hfilho
      | mk _ _ _ => rfl
    | direita =>
      cases dir with
      | NULL => exact absurd rfl hfilho
      | mk _ _ _ => rfl
  rw [iteracao_continua ⟨.mk nome esq dir, x.bytes ++ resto, saida⟩ _ nome esq dir x.c
    (x.lixo ++ 10 :: resto) x.lixo resto n rfl hfolha (scanf_linha x resto hx) hnav rfl h3 hn]
  simp [anunciar_stdout_eq]

theorem folha_em_nil (t : Sala) (h : t.folha = true) :
    ∃ nome, t = .mk nome .NULL .NULL := by
  cases t with
  | NULL => simp [Sala.folha] at h
  | mk nome esq dir =>
    cases esq <;> cases dir <;> simp [Sala.folha, Sala.isNULL] at h
    exact ⟨nome, rfl⟩

theorem folha_ne_NULL (t : Sala) (h : t.folha = true) : t ≠ .NULL := by
  intro e
  rw [e] at h
  simp [Sala.folha] at h

/-- The exploration on lines that choose the sides of a path to a leaf: it
reads those lines and no more, and stops at the leaf. -/
theorem explorarLaco_caminho (p : Endereco) :
    ∀ (t : Sala) (linhas : List Linha) (resto : List Nat) (saida : List Saida) (n : Nat),
      escolhem p linhas = true → (t.em p).folha = true →
      (bytesDe linhas).length + p.length < n →
      explorarLaco n ⟨t, bytesDe linhas ++ resto, saida⟩ =
        some ⟨t.em p, resto, saida ++ impresso t p⟩ := by
  induction p with
  | nil =>
    intro t linhas resto saida n hl hf hn
    cases linhas with
    | cons x xs => simp [escolhem] at hl
    | nil =>
      obtain ⟨nome, rfl⟩ := folha_em_nil t hf
      cases n with
      | zero => simp at hn
      | succ n =>
        have hit : iteracao n ⟨.mk nome .NULL .NULL, resto, saida⟩ = some (.para,
            ⟨.mk nome .NULL .NULL, resto, saida ++ [.voceEstaEm nome, .fimDaJornada]⟩) := by
          simp [iteracao, Sala.isNULL, printf]
        simpa [bytesDe, Sala.em, impresso] using explorarLaco_para n _ _ hit
  | cons l ls ih =>
    intro t linhas resto saida n hl hf hn
    cases linhas with
    | nil => simp [escolhem] at hl
    | cons x xs =>
      simp only [escolhem, Bool.and_eq_true, beq_iff_eq] at hl
      obtain ⟨⟨hx, hc⟩, hxs⟩ := hl
      have hne : t.em (l :: ls) ≠ .NULL := folha_ne_NULL _ hf
      obtain ⟨nome, esq, dir, rfl⟩ := em_cons_ne_NULL t l ls hne
      have hfilho : (Sala.mk nome esq dir).filho l ≠ .NULL := by
        intro e
        apply hne
        simp [Sala.em, e, em_NULL]
      cases n with
      | zero => simp at hn
      | succ n =>
        have hlen : (bytesDe (x :: xs)).length = x.bytes.length + (bytesDe xs).length := by
          simp [bytesDe]
        have hxlen : x.lixo.length < x.bytes.length := by
          simp [Linha.bytes]
          omega
        simp only [List.length_cons] at hn
        have hit := iteracao_linha nome esq dir l x (bytesDe xs ++ resto) saida n hx hc hfilho
          (by omega)
        have hbytes : bytesDe (x :: xs) ++ resto = x.bytes ++ (bytesDe xs ++ resto) := by
          simp [bytesDe]
        rw [hbytes, explorarLaco_continua n _ _ hit,
          ih ((Sala.mk nome esq dir).filho l) xs resto _ n hxs (by simpa [Sala.em] using hf)
            (by omega)]
        simp [Sala.em, impresso]

/-! ## What a turn of the loop can be -/

theorem limparBuffer_inv (m : Nat) :
    ∀ (entrada resto : List Nat), limparBuffer m entrada = some resto →
      ∃ lixo, entrada = lixo ++ 10 :: resto ∧ 10 ∉ lixo ∧ lixo.length < m := by
  induction m with
  | zero => intro entrada resto h; simp [limparBuffer] at h
  | succ m ih =>
    intro entrada resto h
    cases entrada with
    | nil =>
      have h1 : limparBuffer m [] = some resto := by
        simpa [limparBuffer, getchar, EOF] using h
      rw [limparBuffer_sem_linha [] (by simp) m] at h1
      cases h1
    | cons c cs =>
      by_cases hc : c = 10
      · subst hc
        have h1 : cs = resto := by simpa [limparBuffer, getchar] using h
        exact ⟨[], by simp [h1], by simp, by simp⟩
      · have hci : (c : Int) ≠ 10 := by exact_mod_cast hc
        have h1 : limparBuffer m cs = some resto := by
          simpa [limparBuffer, getchar, hci] using h
        obtain ⟨lixo, h2, h3, h4⟩ := ih cs resto h1
        refine ⟨c :: lixo, by simp [h2], ?_, by simpa using h4⟩
        intro hmem
        rcases List.mem_cons.mp hmem with e | e
        · exact hc e.symm
        · exact h3 e

theorem descartarLinha_inv (m : Nat) (s : Estado) (r : Controle × Estado)
    (h : descartarLinha m s = some r) :
    ∃ lixo depois, s.stdin = lixo ++ 10 :: depois ∧ 10 ∉ lixo ∧ lixo.length < m ∧
      r = (.continua, { s with stdin := depois }) := by
  unfold descartarLinha at h
  cases hl : limparBuffer m s.stdin with
  | none => simp [hl] at h
  | some depois =>
    rw [hl] at h
    obtain ⟨lixo, h1, h2, h3⟩ := limparBuffer_inv m s.stdin depois hl
    exact ⟨lixo, depois, h1, h2, h3, (Option.some.inj h).symm⟩

/-- The turns of the loop at a room: the three ways a turn can end. -/
theorem iteracao_inv (m : Nat) (s : Estado) (nome : Nome) (esq dir : Sala)
    (r : Controle × Estado)
    (hsala : s.salaAtual = .mk nome esq dir) (h : iteracao m s = some r) :
    ((esq.isNULL && dir.isNULL) = true ∧
      r = (.para, printf (printf s (.voceEstaEm nome)) .fimDaJornada)) ∨
    ((esq.isNULL && dir.isNULL) = false ∧ ∃ c resto, scanf s.stdin = (some c, resto) ∧
      ((∃ s4, navegar esq dir c { anunciar nome esq dir s with stdin := resto } = (.para, s4) ∧
          r = (.para, s4)) ∨
       (∃ s4 lixo depois, navegar esq dir c { anunciar nome esq dir s with stdin := resto }
            = (.continua, s4) ∧ resto = lixo ++ 10 :: depois ∧ 10 ∉ lixo ∧
          lixo.length < m ∧ r = (.continua, { s4 with stdin := depois })))) := by
  unfold iteracao at h
  simp only [hsala] at h
  by_cases hf : (esq.isNULL && dir.isNULL) = true
  · left
    rw [if_pos hf] at h
    exact ⟨hf, (Option.some.inj h).symm⟩
  · right
    rw [if_neg hf] at h
    refine ⟨by simpa using hf, ?_⟩
    rw [exibirOpcoes_stdin] at h
    simp only [printf] at h
    rcases hsc : scanf s.stdin with ⟨tok, resto⟩
    rw [hsc] at h
    cases tok with
    | none =>
      exfalso
      have hr := scanf_none s.stdin resto hsc
      subst hr
      simp only at h
      rw [descartarLinha_sem_linha _ (by simp) m] at h
      cases h
    | some c =>
      refine ⟨c, resto, rfl, ?_⟩
      simp only at h
      have hst := navegar_stdin esq dir c { anunciar nome esq dir s with stdin := resto }
      rcases hnav : navegar esq dir c { anunciar nome esq dir s with stdin := resto }
        with ⟨ctl, s4⟩
      rw [hnav] at hst
      have hnav2 := hnav
      unfold anunciar printf at hnav2
      rw [hnav2] at h
      cases ctl with
      | para =>
        left
        exact ⟨s4, rfl, (Option.some.inj h).symm⟩
      | continua =>
        right
        simp only at h
        obtain ⟨lixo, depois, h1, h2, h3, h4⟩ := descartarLinha_inv m s4 r h
        exact ⟨s4, lixo, depois, rfl, by rw [← h1]; exact hst.symm, h2, h3, h4⟩

theorem navegar_para_inv (esq dir : Sala) (c : Nat) (s s4 : Estado)
    (h : navegar esq dir c s = (.para, s4)) :
    classificar c = .sair ∧ s4 = printf s .saindo := by
  unfold navegar at h
  cases hc : classificar c <;> rw [hc] at h <;> cases esq <;> cases dir <;>
    simp_all

/-- The cursor after a navigation that goes on: the room on the side asked
for when there is one, the same room otherwise. -/
theorem navegar_continua_inv (esq dir : Sala) (c : Nat) (s s4 : Estado)
    (h : navegar esq dir c s = (.continua, s4)) :
    classificar c ≠ .sair ∧
    s4.salaAtual = (match classificar c with
      | .esquerda => if esq.isNULL then s.salaAtual else esq
      | .direita => if dir.isNULL then s.salaAtual else dir
      | _ => s.salaAtual) ∧
    ∃ novas, s4.stdout = s.stdout ++ novas ∧ ∀ x ∈ novas, x.terminal = false := by
  unfold navegar at h
  cases hc : classificar c <;> rw [hc] at h <;> cases esq <;> cases dir <;>
    simp only [Prod.mk.injEq, true_and, reduceCtorEq, false_and] at h <;>
    subst h <;>
    refine ⟨by simp, by simp [Sala.isNULL, printf], ?_⟩
  all_goals first
    | exact ⟨[], (List.append_nil _).symm, by simp⟩
    | exact ⟨[_], rfl, by simp [Saida.terminal]⟩

theorem iteracao_NULL (m : Nat) (s : Estado) (h : s.salaAtual = .NULL) :
    iteracao m s = some (.para, s) := by
  unfold iteracao
  rw [h]

/-- A turn that goes on to the next: it started at a room that is not a leaf,
read a choice other than the exit and the rest of its line, moved by the move of
the turn, and printed no message that ends the exploration. -/
theorem iteracao_continua_fatos (m : Nat) (s s1 : Estado)
    (h : iteracao m s = some (.continua, s1)) :
    s.salaAtual ≠ .NULL ∧ s.salaAtual.folha = false ∧
    s1.salaAtual = s.salaAtual.em (movimento s).toList ∧ s1.salaAtual ≠ .NULL ∧
    (∃ novas, s1.stdout = s.stdout ++ novas ∧ ∀ x ∈ novas, x.terminal = false) ∧
    (∃ brancos c lixo, s.stdin = brancos ++ c :: lixo ++ 10 :: s1.stdin ∧
      (∀ b ∈ brancos, isspace b = true) ∧ isspace c = false ∧ classificar c ≠ .sair ∧
      10 ∉ lixo) := by
  cases hs : s.salaAtual with
  | NULL =>
    rw [iteracao_NULL m s hs] at h
    cases h
  | mk nome esq dir =>
    rcases iteracao_inv m s nome esq dir _ hs h with ⟨_, hr⟩ | ⟨hf, c, resto, hsc, hcase⟩
    · cases hr
    · rcases hcase with ⟨s4, _, hr⟩ | ⟨s4, lixo, depois, hnav, hresto, hlixo, _, hr⟩
      · cases hr
      · have hs1 : s1 = { s4 with stdin := depois } := by
          have := congrArg Prod.snd hr
          simpa using this
        obtain ⟨hne, hsala4, novas4, hout4, hterm4⟩ := navegar_continua_inv esq dir c _ s4 hnav
        obtain ⟨novas1, hout1, hterm1⟩ := anunciar_stdout nome esq dir s
        obtain ⟨brancos, hb1, hb2, hb3⟩ := scanf_some s.stdin c resto hsc
        have hmov : movimento s = (match classificar c with
            | .esquerda => if esq.isNULL then none else some .esquerda
            | .direita => if dir.isNULL then none else some .direita
            | _ => none) := by
          unfold movimento
          simp only [hs, hf, hsc]
          rfl
        have hsala1 : s1.salaAtual = (match classificar c with
            | .esquerda => if esq.isNULL then Sala.mk nome esq dir else esq
            | .direita => if dir.isNULL then Sala.mk nome esq dir else dir
            | _ => Sala.mk nome esq dir) := by
          rw [hs1]
          simp only [hsala4, anunciar_salaAtual, hs]
        refine ⟨by simp, hf, ?_, ?_, ?_, ?_⟩
        · rw [hsala1, hmov]
          cases classificar c <;> cases esq <;> cases dir <;>
            simp [Sala.isNULL, Sala.em, Sala.filho]
        · rw [hsala1]
          cases classificar c <;> cases esq <;> cases dir <;> simp [Sala.isNULL]
        · refine ⟨novas1 ++ novas4, ?_, ?_⟩
          · rw [hs1]
            simp only [hout4, hout1, List.append_assoc]
          · intro x hx
            rcases List.mem_append.mp hx with e | e
            · exact hterm1 x e
            · exact hterm4 x e
        · refine ⟨brancos, c, lixo, ?_, hb2, hb3, hne, hlixo⟩
          rw [hb1, hresto, hs1]
          simp

/-- A turn that leaves the loop: at a leaf, with the end-of-journey message
and the input untouched, or at a room that is not a leaf, on the exit choice,
with the exit message. -/
theorem iteracao_para_fatos (m : Nat) (s s1 : Estado) (hnn : s.salaAtual ≠ .NULL)
    (h : iteracao m s = some (.para, s1)) :
    s1.salaAtual = s.salaAtual ∧
    ((s.salaAtual.folha = true ∧ s1.stdin = s.stdin ∧
        ∃ nome, s.salaAtual = .mk nome .NULL .NULL ∧
          s1.stdout = s.stdout ++ [.voceEstaEm nome, .fimDaJornada]) ∨
     (s.salaAtual.folha = false ∧ ∃ c novas, scanf s.stdin = (some c, s1.stdin) ∧
        classificar c = .sair ∧ s1.stdout = s.stdout ++ novas ++ [.saindo] ∧
        ∀ x ∈ novas, x.terminal = false)) := by
  cases hs : s.salaAtual with
  | NULL => exact absurd hs hnn
  | mk nome esq dir =>
    rcases iteracao_inv m s nome esq dir _ hs h with ⟨hf, hr⟩ | ⟨hf, c, resto, hsc, hcase⟩
    · have hs1 : s1 = printf (printf s (.voceEstaEm nome)) .fimDaJornada := by
        simpa using congrArg Prod.snd hr
      have hnomes : Sala.mk nome esq dir = .mk nome .NULL .NULL := by
        cases esq <;> cases dir <;> simp [Sala.isNULL] at hf ⊢
      refine ⟨by rw [hs1]; simp [printf, hs], Or.inl ⟨hf, by rw [hs1]; rfl, nome, hnomes, ?_⟩⟩
      rw [hs1]
      simp [printf]
    · rcases hcase with ⟨s4, hnav, hr⟩ | ⟨s4, lixo, depois, _, _, _, _, hr⟩
      · have hs1 : s1 = s4 := by simpa using congrArg Prod.snd hr
        obtain ⟨hc, h4⟩ := navegar_para_inv esq dir c _ s4 hnav
        obtain ⟨novas1, hout1, hterm1⟩ := anunciar_stdout nome esq dir s
        rw [hs1, h4]
        refine ⟨by simp [printf, anunciar_salaAtual, hs], Or.inr ⟨hf, c, novas1, ?_, hc, ?_,
          hterm1⟩⟩
        · simpa [printf] using hsc
        · simp [printf, hout1]
      · cases hr

/-- A turn that ends with some budget ends the same way with a larger one. -/
theorem iteracao_mono (m n : Nat) (s : Estado) (r : Controle × Estado) (hmn : m ≤ n)
    (h : iteracao m s = some r) : iteracao n s = some r := by
  cases hs : s.salaAtual with
  | NULL =>
    rw [iteracao_NULL m s hs] at h
    rw [iteracao_NULL n s hs]
    exact h
  | mk nome esq dir =>
    rcases iteracao_inv m s nome esq dir r hs h with ⟨hf, hr⟩ | ⟨hf, c, resto, hsc, hcase⟩
    · rw [hr]
      unfold iteracao
      simp only [hs, hf, if_true]
    · rcases hcase with ⟨s4, hnav, hr⟩ | ⟨s4, lixo, depois, hnav, hresto, hlixo, hlen, hr⟩
      · rw [hr]
        exact iteracao_para s s4 nome esq dir c resto n hs hf hsc hnav
      · rw [hr]
        exact iteracao_continua s s4 nome esq dir c resto lixo depois n hs hf hsc hnav hresto
          hlixo (by omega)

theorem turnos_mono (m n k : Nat) (hmn : m ≤ n) :
    ∀ (s s1 : Estado), turnos m k s = some s1 → turnos n k s = some s1 := by
  induction k with
  | zero => intro s s1 h; exact h
  | succ k ih =>
    intro s s1 h
    rcases hit : iteracao m s with _ | ⟨ctl, s2⟩
    · simp [turnos, hit] at h
    · cases ctl with
      | para => simp [turnos, hit] at h
      | continua =>
        simp only [turnos, hit] at h
        simp only [turnos, iteracao_mono m n s _ hmn hit]
        exact ih s2 s1 h

/-- A loop that ends is some turns that go on and then one that leaves. -/
theorem explorarLaco_turnos (n : Nat) :
    ∀ (s s1 : Estado), explorarLaco n s = some s1 →
      ∃ k s0, turnos n k s = some s0 ∧ iteracao n s0 = some (.para, s1) := by
  induction n with
  | zero => intro s s1 h; simp [explorarLaco] at h
  | succ n ih =>
    intro s s1 h
    rcases hit : iteracao n s with _ | ⟨ctl, s2⟩
    · simp [explorarLaco, hit] at h
    · cases ctl with
      | para =>
        simp only [explorarLaco, hit, Option.some.injEq] at h
        subst h
        exact ⟨0, s, rfl, iteracao_mono n (n + 1) s _ (by omega) hit⟩
      | continua =>
        simp only [explorarLaco, hit] at h
        obtain ⟨k, s0, h1, h2⟩ := ih s2 s1 h
        refine ⟨k + 1, s0, ?_, iteracao_mono n (n + 1) s0 _ (by omega) h2⟩
        simp only [turnos, iteracao_mono n (n + 1) s _ (by omega) hit]
        exact turnos_mono n (n + 1) k (by omega) s2 s0 h1

/-- The turns of the loop keep the cursor at a room: the room found from the
first one along the moves made; and they print no message that ends the
exploration. -/
theorem turnos_fatos (m k : Nat) :
    ∀ (s s1 : Estado), s.salaAtual ≠ .NULL → turnos m k s = some s1 →
      s1.salaAtual ≠ .NULL ∧ s1.salaAtual = s.salaAtual.em (caminho m k s) ∧
      ∃ novas, s1.stdout = s.stdout ++ novas ∧ ∀ x ∈ novas, x.terminal = false := by
  induction k with
  | zero =>
    intro s s1 hnn h
    simp only [turnos, Option.some.injEq] at h
    subst h
    exact ⟨hnn, rfl, [], by simp, by simp⟩
  | succ k ih =>
    intro s s1 hnn h
    rcases hit : iteracao m s with _ | ⟨ctl, s2⟩
    · simp [turnos, hit] at h
    · cases ctl with
      | para => simp [turnos, hit] at h
      | continua =>
        simp only [turnos, hit] at h
        obtain ⟨_, _, hsala, hnn2, ⟨novas, hout, hterm⟩, _⟩ := iteracao_continua_fatos m s s2 hit
        obtain ⟨h1, h2, novas2, hout2, hterm2⟩ := ih s2 s1 hnn2 h
        refine ⟨h1, ?_, novas ++ novas2, ?_, ?_⟩
        · simp only [caminho, hit]
          rw [em_append, ← hsala]
          exact h2
        · rw [hout2, hout, List.append_assoc]
        · intro x hx
          rcases List.mem_append.mp hx with e | e
          · exact hterm x e
          · exact hterm2 x e

/-! ## Walks on the default map -/

/-- C12: on the map `main` builds, three lines that each choose the left, read
from the hall, lead to the leaf "Dispensa": `explorarSalas` announces it, prints
the end of the journey and returns with everything after the three lines still
in the input. -/
theorem explorarSalas_dispensa (malloc : Nat → Bool) (hall : Sala) (linhas : List Linha)
    (resto : List Nat) (saida : List Saida) (n : Nat)
    (hmapa : montarMapa malloc = some hall)
    (hlinhas : escolhem [.esquerda, .esquerda, .esquerda] linhas = true)
    (hn : (bytesDe linhas).length + 3 < n) :
    explorarSalas n ⟨hall, bytesDe linhas ++ resto, saida⟩ = some
      ⟨.mk (ascii "Dispensa") .NULL .NULL, resto,
        saida ++ [.voceEstaEm (ascii "Hall de Entrada"), .escolhaCaminho,
          .opcaoEsquerda (ascii "Sala de Estar"), .opcaoDireita (ascii "Biblioteca"),
          .opcaoSair,
          .voceEstaEm (ascii "Sala de Estar"), .escolhaCaminho,
          .opcaoEsquerda (ascii "Cozinha"), .opcaoDireita (ascii "Quarto Principal"),
          .opcaoSair,
          .voceEstaEm (ascii "Cozinha"), .escolhaCaminho,
          .opcaoEsquerda (ascii "Dispensa"), .opcaoSair,
          .voceEstaEm (ascii "Dispensa"), .fimDaJornada]⟩ := by
  rw [montarMapa_some malloc hall hmapa]
  have hlaco := explorarLaco_caminho [.esquerda, .esquerda, .esquerda] mansao linhas resto saida
    n hlinhas (by decide) (by simpa using hn)
  rw [explorarSalas_laco n _ (ascii "Hall de Entrada") (mansao.filho .esquerda)
    (mansao.filho .direita) rfl, hlaco]
  have h1 : mansao.em [.esquerda, .esquerda, .esquerda] = .mk (ascii "Dispensa") .NULL .NULL := by
    decide
  have h2 : impresso mansao [.esquerda, .esquerda, .esquerda] =
      [.voceEstaEm (ascii "Hall de Entrada"), .escolhaCaminho,
          .opcaoEsquerda (ascii "Sala de Estar"), .opcaoDireita (ascii "Biblioteca"),
          .opcaoSair,
          .voceEstaEm (ascii "Sala de Estar"), .escolhaCaminho,
          .opcaoEsquerda (ascii "Cozinha"), .opcaoDireita (ascii "Quarto Principal"),
          .opcaoSair,
          .voceEstaEm (ascii "Cozinha"), .escolhaCaminho,
          .opcaoEsquerda (ascii "Dispensa"), .opcaoSair,
          .voceEstaEm (ascii "Dispensa"), .fimDaJornada] := by
    decide
  rw [h1, h2]

/-- The lines "e", " E" and "e!" lead from the hall to "Dispensa", and the line
after them is not read. -/
theorem explorarSalas_dispensa_witness :
    explorarSalas 12 ⟨mansao, ascii "e\n E\ne!\nd\n", []⟩ = some
      ⟨.mk (ascii "Dispensa") .NULL .NULL, ascii "d\n",
        [.voceEstaEm (ascii "Hall de Entrada"), .escolhaCaminho,
          .opcaoEsquerda (ascii "Sala de Estar"), .opcaoDireita (ascii "Biblioteca"),
          .opcaoSair,
          .voceEstaEm (ascii "Sala de Estar"), .escolhaCaminho,
          .opcaoEsquerda (ascii "Cozinha"), .opcaoDireita (ascii "Quarto Principal"),
          .opcaoSair,
          .voceEstaEm (ascii "Cozinha"), .escolhaCaminho,
          .opcaoEsquerda (ascii "Dispensa"), .opcaoSair,
          .voceEstaEm (ascii "Dispensa"), .fimDaJornada]⟩ :=
  explorarSalas_dispensa (fun _ => true) mansao
    [⟨[], 101, []⟩, ⟨[32], 69, []⟩, ⟨[], 101, [33]⟩] (ascii "d\n") [] 12
    (by decide) (by decide) (by decide)

/-- C13: on the map `main` builds, three lines that choose the right, the left
and the right, read from the hall, lead to the leaf "Jardim de Inverno", where
the exploration ends with the end-of-journey message. -/
theorem explorarSalas_jardim (malloc : Nat → Bool) (hall : Sala) (linhas : List Linha)
    (resto : List Nat) (saida : List Saida) (n : Nat)
    (hmapa : montarMapa malloc = some hall)
    (hlinhas : escolhem [.direita, .esquerda, .direita] linhas = true)
    (hn : (bytesDe linhas).length + 3 < n) :
    explorarSalas n ⟨hall, bytesDe linhas ++ resto, saida⟩ = some
      ⟨.mk (ascii "Jardim de Inverno") .NULL .NULL, resto,
        saida ++ [.voceEstaEm (ascii "Hall de Entrada"), .escolhaCaminho,
          .opcaoEsquerda (ascii "Sala de Estar"), .opcaoDireita (ascii "Biblioteca"),
          .opcaoSair,
          .voceEstaEm (ascii "Biblioteca"), .escolhaCaminho,
          .opcaoEsquerda (ascii "Sala de Jantar"), .opcaoSair,
          .voceEstaEm (ascii "Sala de Jantar"), .escolhaCaminho,
          .opcaoDireita (ascii "Jardim de Inverno"), .opcaoSair,
          .voceEstaEm (ascii "Jardim de Inverno"), .fimDaJornada]⟩ := by
  rw [montarMapa_some malloc hall hmapa]
  have hlaco := explorarLaco_caminho [.direita, .esquerda, .direita] mansao linhas resto saida
    n hlinhas (by decide) (by simpa using hn)
  rw [explorarSalas_laco n _ (ascii "Hall de Entrada") (mansao.filho .esquerda)
    (mansao.filho .direita) rfl, hlaco]
  have h1 : mansao.em [.direita, .esquerda, .direita] =
      .mk (ascii "Jardim de Inverno") .NULL .NULL := by
    decide
  have h2 : impresso mansao [.direita, .esquerda, .direita] =
      [.voceEstaEm (ascii "Hall de Entrada"), .escolhaCaminho,
          .opcaoEsquerda (ascii "Sala de Estar"), .opcaoDireita (ascii "Biblioteca"),
          .opcaoSair,
          .voceEstaEm (ascii "Biblioteca"), .escolhaCaminho,
          .opcaoEsquerda (ascii "Sala de Jantar"), .opcaoSair,
          .voceEstaEm (ascii "Sala de Jantar"), .escolhaCaminho,
          .opcaoDireita (ascii "Jardim de Inverno"), .opcaoSair,
          .voceEstaEm (ascii "Jardim de Inverno"), .fimDaJornada] := by
    decide
  rw [h1, h2]

/-- The lines "D", "e" and "d" lead from the hall to "Jardim de Inverno". -/
theorem explorarSalas_jardim_witness :
    explorarSalas 10 ⟨mansao, ascii "D\ne\nd\n", []⟩ = some
      ⟨.mk (ascii "Jardim de Inverno") .NULL .NULL, [],
        [.voceEstaEm (ascii "Hall de Entrada"), .escolhaCaminho,
          .opcaoEsquerda (ascii "Sala de Estar"), .opcaoDireita (ascii "Biblioteca"),
          .opcaoSair,
          .voceEstaEm (ascii "Biblioteca"), .escolhaCaminho,
          .opcaoEsquerda (ascii "Sala de Jantar"), .opcaoSair,
          .voceEstaEm (ascii "Sala de Jantar"), .escolhaCaminho,
          .opcaoDireita (ascii "Jardim de Inverno"), .opcaoSair,
          .voceEstaEm (ascii "Jardim de Inverno"), .fimDaJornada]⟩ :=
  explorarSalas_jardim (fun _ => true) mansao
    [⟨[], 68, []⟩, ⟨[], 101, []⟩, ⟨[], 100, []⟩] [] [] 10
    (by decide) (by decide) (by decide)

/-! ## The end of an exploration -/

/-- C16: an exploration that starts at a room and returns ends in one of two
ways, and no message before its last one ends it: at a leaf, with the leaf
announced and the end-of-journey message, or at a room that is not a leaf where
the last character read was the exit, with the exit message.  The cursor is a
room in every turn, so the loop never ends by its condition. -/
theorem explorarSalas_terminal (n : Nat) (s s1 : Estado)
    (hraiz : s.salaAtual ≠ .NULL) (h : explorarSalas n s = some s1) :
    (∃ k s0 novas, turnos n k s = some s0 ∧ iteracao n s0 = some (.para, s1) ∧
      s1.salaAtual = s0.salaAtual ∧ s1.salaAtual ≠ .NULL ∧
      s0.stdout = s.stdout ++ novas ∧ (∀ x ∈ novas, x.terminal = false) ∧
      ((s1.salaAtual.folha = true ∧ s1.stdin = s0.stdin ∧
          ∃ nome, s1.salaAtual = .mk nome .NULL .NULL ∧
            s1.stdout = s0.stdout ++ [.voceEstaEm nome, .fimDaJornada]) ∨
       (s1.salaAtual.folha = false ∧
          ∃ c novas2, scanf s0.stdin = (some c, s1.stdin) ∧ classificar c = .sair ∧
            s1.stdout = s0.stdout ++ novas2 ++ [.saindo] ∧
            ∀ x ∈ novas2, x.terminal = false))) ∧
    (∀ m k s0, turnos m k s = some s0 → s0.salaAtual ≠ .NULL) := by
  constructor
  · have hlaco : explorarLaco n s = some s1 := by
      cases hs : s.salaAtual with
      | NULL => exact absurd hs hraiz
      | mk a b c => rw [← explorarSalas_laco n s a b c hs]; exact h
    obtain ⟨k, s0, hrun, hlast⟩ := explorarLaco_turnos n s s1 hlaco
    obtain ⟨hnn0, _, novas0, hout0, hterm0⟩ := turnos_fatos n k s s0 hraiz hrun
    obtain ⟨hsala, hcase⟩ := iteracao_para_fatos n s0 s1 hnn0 hlast
    refine ⟨k, s0, novas0, hrun, hlast, hsala, by rw [hsala]; exact hnn0, hout0, hterm0, ?_⟩
    rw [hsala]
    exact hcase
  · intro m k s0 hrun
    exact (turnos_fatos m k s s0 hraiz hrun).1

/-- From the hall, the lines "e" and "s": the exploration ends at "Sala de
Estar", which is not a leaf, on the exit read there. -/
theorem explorarSalas_terminal_witness :
    ∃ k s0, turnos 5 k ⟨mansao, ascii "e\ns\n", []⟩ = some s0 ∧
      iteracao 5 s0 = some (.para, ⟨mansao.em [.esquerda], ascii "\n",
        [.voceEstaEm (ascii "Hall de Entrada"), .escolhaCaminho,
          .opcaoEsquerda (ascii "Sala de Estar"), .opcaoDireita (ascii "Biblioteca"),
          .opcaoSair,
          .voceEstaEm (ascii "Sala de Estar"), .escolhaCaminho,
          .opcaoEsquerda (ascii "Cozinha"), .opcaoDireita (ascii "Quarto Principal"),
          .opcaoSair, .saindo]⟩) ∧
      (mansao.em [.esquerda]).folha = false ∧
      ∃ c, scanf s0.stdin = (some c, ascii "\n") ∧ classificar c = .sair :=
  match (explorarSalas_terminal 5 ⟨mansao, ascii "e\ns\n", []⟩
    ⟨mansao.em [.esquerda], ascii "\n",
        [.voceEstaEm (ascii "Hall de Entrada"), .escolhaCaminho,
          .opcaoEsquerda (ascii "Sala de Estar"), .opcaoDireita (ascii "Biblioteca"),
          .opcaoSair,
          .voceEstaEm (ascii "Sala de Estar"), .escolhaCaminho,
          .opcaoEsquerda (ascii "Cozinha"), .opcaoDireita (ascii "Quarto Principal"),
          .opcaoSair, .saindo]⟩ (by decide) (by decide)).1 with
  | ⟨_, _, _, _, _, _, _, _, _, Or.inl h3⟩ => absurd h3.1 (by decide)
  | ⟨k, s0, _, h1, h2, _, _, _, _, Or.inr ⟨h3, c, _, h4, h5, _⟩⟩ => ⟨k, s0, h1, h2, h3, c, h4, h5⟩

/-! ## The map during the exploration -/

theorem main_some (malloc : Nat → Bool) (n : Nat) (stdin : List Nat) (hall : Sala)
    (proc : Processo) (hmapa : montarMapa malloc = some hall)
    (h : main malloc n stdin = some proc) :
    ∃ s1, explorarSalas n ⟨hall, stdin, [.titulo, .boasVindas]⟩ = some s1 ∧
      proc = ⟨s1.stdin, s1.stdout, liberarMapa [] hall, 0⟩ := by
  unfold main at h
  simp only [hmapa] at h
  cases he : explorarSalas n ⟨hall, stdin, [.titulo, .boasVindas]⟩ with
  | none => simp [he] at h
  | some s1 =>
    simp only [he, Option.some.injEq] at h
    exact ⟨s1, rfl, h.symm⟩

theorem liberarMapa_count (raiz : Sala) (p : Endereco) :
    (liberarMapa [] raiz).count p = if raiz.em p = .NULL then 0 else 1 := by
  have hmem := mem_liberarMapa raiz [] p
  split_ifs with h
  · rw [List.count_eq_zero]
    intro hp
    obtain ⟨q, hq, hne⟩ := hmem.mp hp
    simp only [List.nil_append] at hq
    subst hq
    exact hne h
  · exact count_nodup_mem p _ (liberarMapa_nodup raiz []) (hmem.mpr ⟨p, by simp, h⟩)

/-! ## One line a turn -/

theorem impresso_getLast (p : Endereco) :
    ∀ t : Sala, (t.em p).folha = true → (impresso t p).getLast? = some .fimDaJornada := by
  induction p with
  | nil =>
    intro t h
    obtain ⟨nome, rfl⟩ := folha_em_nil t h
    rfl
  | cons l ls ih =>
    intro t h
    obtain ⟨nome, esq, dir, rfl⟩ := em_cons_ne_NULL t l ls (folha_ne_NULL _ h)
    have h1 := ih ((Sala.mk nome esq dir).filho l) (by simpa [Sala.em] using h)
    have h2 : impresso ((Sala.mk nome esq dir).filho l) ls ≠ [] := by
      intro e
      rw [e] at h1
      simp at h1
    simp only [impresso]
    rw [List.getLast?_append_of_ne_nil _ h2]
    exact h1

/-- C19: in an exploration that starts at a room, the cursor after any number
of turns is the room found from the first one along the moves made so far, in
their order; a turn moves by the one side it accepts or not at all, so the
moves made are never more than the levels below the first room (three on the
default map); and lines that choose, one by one, the sides of a path to a leaf
end the exploration at that leaf with the end-of-journey message. -/
theorem explorarSalas_caminho (s : Estado) (hraiz : s.salaAtual ≠ .NULL) :
    (∀ m k s1, turnos m k s = some s1 →
      s1.salaAtual = s.salaAtual.em (caminho m k s) ∧ s1.salaAtual ≠ .NULL ∧
      (caminho m k s).length + 1 ≤ s.salaAtual.niveis) ∧
    (∀ m s1, iteracao m s = some (.continua, s1) →
      (∀ l, movimento s = some l →
        s1.salaAtual = s.salaAtual.filho l ∧ caminho m 1 s = [l]) ∧
      (movimento s = none → s1.salaAtual = s.salaAtual ∧ caminho m 1 s = [])) ∧
    (∀ (p : Endereco) (linhas : List Linha) (resto : List Nat) (n : Nat),
      escolhem p linhas = true → (s.salaAtual.em p).folha = true →
      s.stdin = bytesDe linhas ++ resto → (bytesDe linhas).length + p.length < n →
      explorarSalas n s = some ⟨s.salaAtual.em p, resto, s.stdout ++ impresso s.salaAtual p⟩ ∧
      (impresso s.salaAtual p).getLast? = some .fimDaJornada) ∧
    (∀ (malloc : Nat → Bool) m k s1, montarMapa malloc = some s.salaAtual →
      turnos m k s = some s1 → (caminho m k s).length ≤ 3) := by
  have hturnos : ∀ m k s1, turnos m k s = some s1 →
      s1.salaAtual = s.salaAtual.em (caminho m k s) ∧ s1.salaAtual ≠ .NULL ∧
      (caminho m k s).length + 1 ≤ s.salaAtual.niveis := by
    intro m k s1 hrun
    obtain ⟨h1, h2, _⟩ := turnos_fatos m k s s1 hraiz hrun
    have h3 := em_niveis s.salaAtual (caminho m k s) (by rw [← h2]; exact h1)
    exact ⟨h2, h1, by omega⟩
  refine ⟨hturnos, ?_, ?_, ?_⟩
  · intro m s1 hit
    obtain ⟨_, _, h3, _⟩ := iteracao_continua_fatos m s s1 hit
    constructor
    · intro l hl
      rw [hl] at h3
      refine ⟨by simpa [Sala.em] using h3, ?_⟩
      simp [caminho, hit, hl]
    · intro hl
      rw [hl] at h3
      refine ⟨by simpa [Sala.em] using h3, ?_⟩
      simp [caminho, hit, hl]
  · intro p linhas resto n hl hf hin hn
    have hs : s = ⟨s.salaAtual, bytesDe linhas ++ resto, s.stdout⟩ := by
      cases s
      simp_all
    have hlaco := explorarLaco_caminho p s.salaAtual linhas resto s.stdout n hl hf hn
    refine ⟨?_, impresso_getLast p s.salaAtual hf⟩
    cases hsala : s.salaAtual with
    | NULL => exact absurd hsala hraiz
    | mk a b c =>
      rw [explorarSalas_laco n s a b c hsala, ← hsala, ← hlaco]
      exact congrArg (explorarLaco n) hs
  · intro malloc m k s1 hmapa hrun
    have h := (hturnos m k s1 hrun).2.2
    have h4 : s.salaAtual.niveis = 4 := by
      rw [montarMapa_some malloc s.salaAtual hmapa]
      decide
    omega

/-- From the hall, after the lines "d", "d" and "e" the cursor is at "Sala de
Jantar", the room found along the two moves made: the second line asked for a
side "Biblioteca" does not have. -/
theorem explorarSalas_caminho_witness :
    mansao.em [.direita, .esquerda] = mansao.em (caminho 3 3 ⟨mansao, ascii "d\nd\ne\n", []⟩) ∧
    mansao.em [.direita, .esquerda] ≠ .NULL ∧
    (caminho 3 3 ⟨mansao, ascii "d\nd\ne\n", []⟩).length + 1 ≤ mansao.niveis :=
  (explorarSalas_caminho ⟨mansao, ascii "d\nd\ne\n", []⟩ (by decide)).1 3 3
    ⟨mansao.em [.direita, .esquerda], [],
      [.voceEstaEm (ascii "Hall de Entrada"), .escolhaCaminho,
        .opcaoEsquerda (ascii "Sala de Estar"), .opcaoDireita (ascii "Biblioteca"),
        .opcaoSair,
        .voceEstaEm (ascii "Biblioteca"), .escolhaCaminho,
        .opcaoEsquerda (ascii "Sala de Jantar"), .opcaoSair, .semCaminhoDireita,
        .voceEstaEm (ascii "Biblioteca"), .escolhaCaminho,
        .opcaoEsquerda (ascii "Sala de Jantar"), .opcaoSair]⟩ (by decide)

/-! ## White space before a choice -/

/-- At a room that is not a leaf a turn depends on the input through what
`scanf` makes of it. -/
theorem iteracao_scanf (n : Nat) (nome : Nome) (esq dir : Sala) (a b : List Nat)
    (saida : List Saida) (hfolha : (Sala.mk nome esq dir).folha = false)
    (h : scanf a = scanf b) :
    iteracao n ⟨.mk nome esq dir, a, saida⟩ = iteracao n ⟨.mk nome esq dir, b, saida⟩ := by
  cases esq <;> cases dir <;>
    first
    | (exfalso; simp [Sala.folha, Sala.isNULL] at hfolha; done)
    | simp [iteracao, exibirOpcoes, printf, Sala.isNULL, h]

/-- C20: white space before a choice is passed over without a word: `scanf`
with the format " %c" reads over spaces, tabs and newlines, whole empty lines
included, and stores the first character that is not white space; at a room that
is not a leaf the turn, and the whole exploration, are those of the input
without that white space: the same messages, the same cursor, the same input
left. -/
theorem scanf_pula_brancos (brancos : List Nat) (hb : ∀ b ∈ brancos, isspace b = true) :
    (isspace 32 = true ∧ isspace 9 = true ∧ isspace 10 = true) ∧
    (∀ c resto, isspace c = false → scanf (brancos ++ c :: resto) = (some c, resto)) ∧
    (∀ n nome esq dir entrada saida, (Sala.mk nome esq dir).folha = false →
      iteracao n ⟨.mk nome esq dir, brancos ++ entrada, saida⟩ =
        iteracao n ⟨.mk nome esq dir, entrada, saida⟩) ∧
    (∀ n nome esq dir entrada saida, (Sala.mk nome esq dir).folha = false →
      explorarSalas n ⟨.mk nome esq dir, brancos ++ entrada, saida⟩ =
        explorarSalas n ⟨.mk nome esq dir, entrada, saida⟩) := by
  refine ⟨⟨by decide, by decide, by decide⟩, ?_, ?_, ?_⟩
  · intro c resto hc
    rw [scanf_brancos brancos _ hb, scanf_caractere c resto hc]
  · intro n nome esq dir entrada saida hf
    exact iteracao_scanf n nome esq dir _ _ saida hf (scanf_brancos brancos entrada hb)
  · intro n nome esq dir entrada saida hf
    rw [explorarSalas_laco n _ nome esq dir rfl, explorarSalas_laco n _ nome esq dir rfl]
    cases n with
    | zero => rfl
    | succ n =>
      simp only [explorarLaco]
      rw [iteracao_scanf n nome esq dir _ _ saida hf (scanf_brancos brancos entrada hb)]

/-- Two empty lines, a tab and a space before "e": the turn at the hall is the
turn on "e" alone, a move to "Sala de Estar" with no message about the white
space. -/
theorem scanf_pula_brancos_witness :
    scanf (ascii "\n\n\t e\n") = (some 101, ascii "\n") ∧
    iteracao 1 ⟨mansao, ascii "\n\n\t e\n", []⟩ = some (.continua,
      ⟨mansao.em [.esquerda], [],
        [.voceEstaEm (ascii "Hall de Entrada"), .escolhaCaminho,
          .opcaoEsquerda (ascii "Sala de Estar"), .opcaoDireita (ascii "Biblioteca"),
          .opcaoSair]⟩) :=
  ⟨(scanf_pula_brancos (ascii "\n\n\t ") (by decide)).2.1 101 (ascii "\n") (by decide),
   ((scanf_pula_brancos (ascii "\n\n\t ") (by decide)).2.2.1 1 (ascii "Hall de Entrada")
      (mansao.filho .esquerda) (mansao.filho .direita) (ascii "e\n") [] (by decide)).trans
    (by decide)⟩

/-! ## The memory during the exploration -/

theorem exibirOpcoes_mem (cel : Heap.Celula) (s s2 : Heap.Estado)
    (h : Heap.exibirOpcoes cel s = some s2) : s2.mem = s.mem := by
  unfold Heap.exibirOpcoes at h
  rcases cel with ⟨nome, esq, dir⟩
  cases esq with
  | none =>
    cases dir with
    | none =>
      simp only [Heap.printf, Option.some.injEq] at h
      rw [← h]
    | some d =>
      cases hd : Heap.ler s.mem d with
      | none => simp [hd] at h
      | some cd =>
        simp only [hd, Heap.printf, Option.some.injEq] at h
        rw [← h]
  | some e =>
    cases he : Heap.ler s.mem e with
    | none => simp [he] at h
    | some ce =>
      cases dir with
      | none =>
        simp only [he, Heap.printf, Option.some.injEq] at h
        rw [← h]
      | some d =>
        cases hd : Heap.ler s.mem d with
        | none => simp [he, hd] at h
        | some cd =>
          simp only [he, hd, Heap.printf, Option.some.injEq] at h
          rw [← h]

theorem navegar_mem (cel : Heap.Celula) (c : Nat) (s : Heap.Estado) :
    (Heap.navegar cel c s).2.mem = s.mem := by
  unfold Heap.navegar
  rcases cel with ⟨nome, esq, dir⟩
  cases classificar c <;> cases esq <;> cases dir <;> rfl

theorem descartarLinha_mem (n : Nat) (s : Heap.Estado) (r : Controle × Heap.Estado)
    (h : Heap.descartarLinha n s = some r) : r.2.mem = s.mem := by
  unfold Heap.descartarLinha at h
  cases hl : limparBuffer n s.stdin with
  | none => simp [hl] at h
  | some resto =>
    simp only [hl, Option.some.injEq] at h
    rw [← h]

/-- A turn of the loop gives back the memory it was given. -/
theorem iteracao_mem (n : Nat) (s : Heap.Estado) (r : Controle × Heap.Estado)
    (h : Heap.iteracao n s = some r) : r.2.mem = s.mem := by
  unfold Heap.iteracao at h
  cases hp : s.salaAtual with
  | none =>
    simp only [hp, Option.some.injEq] at h
    rw [← h]
  | some a =>
    simp only [hp] at h
    cases hc : Heap.ler s.mem a with
    | none => simp [hc] at h
    | some cel =>
      simp only [hc] at h
      split at h
      · simp only [Option.some.injEq] at h
        rw [← h]
        rfl
      · cases he : Heap.exibirOpcoes cel (Heap.printf s (.voceEstaEm cel.nome)) with
        | none => simp [he] at h
        | some s2 =>
          have hm2 : s2.mem = s.mem := exibirOpcoes_mem cel (Heap.printf s (.voceEstaEm cel.nome)) s2 he
          simp only [he] at h
          rcases hsc : scanf s2.stdin with ⟨tok, resto⟩
          rw [hsc] at h
          cases tok with
          | none =>
            simp only at h
            rw [descartarLinha_mem n _ r h]
            exact hm2
          | some c =>
            simp only at h
            have hnm := navegar_mem cel c { s2 with stdin := resto }
            rcases hnav : Heap.navegar cel c { s2 with stdin := resto } with ⟨ctl, s4⟩
            rw [hnav] at h hnm
            cases ctl with
            | para =>
              simp only [Option.some.injEq] at h
              rw [← h]
              exact hnm.trans hm2
            | continua =>
              simp only at h
              rw [descartarLinha_mem n s4 r h]
              exact hnm.trans hm2

theorem explorarLaco_mem (n : Nat) :
    ∀ s s1 : Heap.Estado, Heap.explorarLaco n s = some s1 → s1.mem = s.mem := by
  induction n with
  | zero => intro s s1 h; simp [Heap.explorarLaco] at h
  | succ n ih =>
    intro s s1 h
    rcases hit : Heap.iteracao n s with _ | ⟨ctl, s2⟩
    · simp [Heap.explorarLaco, hit] at h
    · cases ctl with
      | para =>
        simp only [Heap.explorarLaco, hit, Option.some.injEq] at h
        rw [← h]
        exact iteracao_mem n s _ hit
      | continua =>
        simp only [Heap.explorarLaco, hit] at h
        rw [ih s2 s1 h]
        exact iteracao_mem n s _ hit

/-- The exploration gives back the memory it was given. -/
theorem explorarSalas_mem (n : Nat) (s s1 : Heap.Estado)
    (h : Heap.explorarSalas n s = some s1) : s1.mem = s.mem := by
  unfold Heap.explorarSalas at h
  cases hp : s.salaAtual with
  | none =>
    simp only [hp, Option.some.injEq] at h
    rw [← h]
    rfl
  | some a =>
    simp only [hp] at h
    exact explorarLaco_mem n s s1 h

theorem atribuirSala_none_mem (pos : Endereco) (l : Lado) (malloc : Bool) (nome : Nome) :
    Heap.atribuirSala none pos l malloc nome = none := rfl

theorem atribuirSala_false_mem (st : Option (Heap.Memoria × Nat)) (pos : Endereco) (l : Lado)
    (nome : Nome) : Heap.atribuirSala st pos l false nome = none := by
  rcases st with _ | ⟨mem, hall⟩ <;> rfl

/-- In memory too `main` builds the mansion when the nine allocations give
memory, and there is no map otherwise. -/
theorem montarMapa_eq_mem (malloc : Nat → Bool) :
    Heap.montarMapa malloc =
      if malloc 0 && malloc 1 && malloc 2 && malloc 3 && malloc 4 && malloc 5 && malloc 6 &&
        malloc 7 && malloc 8 then some (Heap.mansao, 0) else none := by
  unfold Heap.montarMapa
  cases h0 : malloc 0
  · simp [Heap.criarSala, atribuirSala_none_mem]
  cases h1 : malloc 1
  · simp [atribuirSala_false_mem, atribuirSala_none_mem]
  cases h2 : malloc 2
  · simp [atribuirSala_false_mem, atribuirSala_none_mem]
  cases h3 : malloc 3
  · simp [atribuirSala_false_mem, atribuirSala_none_mem]
  cases h4 : malloc 4
  · simp [atribuirSala_false_mem, atribuirSala_none_mem]
  cases h5 : malloc 5
  · simp [atribuirSala_false_mem, atribuirSala_none_mem]
  cases h6 : malloc 6
  · simp [atribuirSala_false_mem, atribuirSala_none_mem]
  cases h7 : malloc 7
  · simp [atribuirSala_false_mem, atribuirSala_none_mem]
  cases h8 : malloc 8
  · simp [atribuirSala_false_mem, atribuirSala_none_mem]
  decide

theorem liberarMapa_mansao_some (n : Nat) (hn : 5 ≤ n) :
    Heap.liberarMapa n Heap.mansao [] (some 0)
      = some (List.replicate 9 none, [6, 3, 7, 4, 1, 8, 5, 2, 0]) := by
  obtain ⟨m, rfl⟩ : ∃ m, n = m + 5 := ⟨n - 5, by omega⟩
  simp [Heap.liberarMapa, Heap.ler, Heap.mansao]

theorem representa_NULL (mem : Heap.Memoria) (p : Heap.Ponteiro)
    (h : Heap.representa mem p .NULL = true) : p = none := by
  cases p with
  | none => rfl
  | some a => simp [Heap.representa] at h

theorem representa_mk (mem : Heap.Memoria) (p : Heap.Ponteiro) (nome : Nome) (esq dir : Sala)
    (h : Heap.representa mem p (.mk nome esq dir) = true) :
    ∃ a cel, p = some a ∧ Heap.ler mem a = some cel ∧ cel.nome = nome ∧
      Heap.representa mem cel.esquerda esq = true ∧
      Heap.representa mem cel.direita dir = true := by
  cases p with
  | none => simp [Heap.representa] at h
  | some a =>
    cases hc : Heap.ler mem a with
    | none => simp [Heap.representa, hc] at h
    | some cel =>
      simp only [Heap.representa, hc, Bool.and_eq_true, beq_iff_eq] at h
      exact ⟨a, cel, rfl, hc, h.1.1, h.1.2, h.2⟩

theorem representa_isNone (mem : Heap.Memoria) (p : Heap.Ponteiro) (t : Sala)
    (h : Heap.representa mem p t = true) : p.isNone = t.isNULL := by
  cases t with
  | NULL => rw [representa_NULL mem p h]; rfl
  | mk nome esq dir =>
    obtain ⟨a, cel, hp, _⟩ := representa_mk mem p nome esq dir h
    rw [hp]
    rfl

theorem exibirOpcoes_lista (esq dir : Sala) (st : Estado) :
    exibirOpcoes esq dir st = { st with stdout := st.stdout ++ listaOpcoes esq dir } := by
  cases esq <;> cases dir <;> simp [exibirOpcoes, printf, listaOpcoes]

theorem exibirOpcoes_simula (cel : Heap.Celula) (esq dir : Sala) (s : Heap.Estado)
    (mem : Heap.Memoria) (hmem : s.mem = mem)
    (he : Heap.representa mem cel.esquerda esq = true)
    (hd : Heap.representa mem cel.direita dir = true) :
    Heap.exibirOpcoes cel s = some { s with stdout := s.stdout ++ listaOpcoes esq dir } := by
  subst hmem
  unfold Heap.exibirOpcoes
  cases esq with
  | NULL =>
    rw [representa_NULL _ _ he]
    cases dir with
    | NULL =>
      rw [representa_NULL _ _ hd]
      simp [Heap.printf, listaOpcoes]
    | mk nd ed dd =>
      obtain ⟨a, c, hp, hl, hn, _⟩ := representa_mk _ _ nd ed dd hd
      rw [hp]
      simp [Heap.printf, listaOpcoes, hl, hn]
  | mk ne ee de =>
    obtain ⟨a, c, hp, hl, hn, _⟩ := representa_mk _ _ ne ee de he
    rw [hp]
    cases dir with
    | NULL =>
      rw [representa_NULL _ _ hd]
      simp [Heap.printf, listaOpcoes, hl, hn]
    | mk nd ed dd =>
      obtain ⟨a2, c2, hp2, hl2, hn2, _⟩ := representa_mk _ _ nd ed dd hd
      rw [hp2]
      simp [Heap.printf, listaOpcoes, hl, hn, hl2, hn2]

theorem navegar_simula (cel : Heap.Celula) (esq dir : Sala) (c : Nat) (s : Heap.Estado)
    (st : Estado) (hin : st.stdin = s.stdin) (hout : st.stdout = s.stdout)
    (hcur : Heap.representa s.mem s.salaAtual st.salaAtual = true)
    (he : Heap.representa s.mem cel.esquerda esq = true)
    (hd : Heap.representa s.mem cel.direita dir = true) :
    (Heap.navegar cel c s).1 = (navegar esq dir c st).1 ∧
    Heap.corresponde (Heap.navegar cel c s).2 (navegar esq dir c st).2 := by
  unfold Heap.navegar navegar Heap.corresponde
  cases classificar c with
  | esquerda =>
    cases esq with
    | NULL =>
      rw [representa_NULL _ _ he]
      exact ⟨rfl, hin, by simp [printf, Heap.printf, hout], hcur⟩
    | mk ne ee de =>
      obtain ⟨a, _, hp, _⟩ := representa_mk _ _ ne ee de he
      rw [hp] at he ⊢
      exact ⟨rfl, hin, hout, he⟩
  | direita =>
    cases dir with
    | NULL =>
      rw [representa_NULL _ _ hd]
      exact ⟨rfl, hin, by simp [printf, Heap.printf, hout], hcur⟩
    | mk nd ed dd =>
      obtain ⟨a, _, hp, _⟩ := representa_mk _ _ nd ed dd hd
      rw [hp] at hd ⊢
      exact ⟨rfl, hin, hout, hd⟩
  | sair => exact ⟨rfl, hin, by simp [printf, Heap.printf, hout], hcur⟩
  | invalida => exact ⟨rfl, hin, by simp [printf, Heap.printf, hout], hcur⟩

theorem descartarLinha_simula (n : Nat) (s : Heap.Estado) (st : Estado)
    (h : Heap.corresponde s st) :
    match descartarLinha n st with
    | none => Heap.descartarLinha n s = none
    | some (ctl, st1) => ∃ s1, Heap.descartarLinha n s = some (ctl, s1) ∧
        Heap.corresponde s1 st1 := by
  obtain ⟨hin, hout, hcur⟩ := h
  unfold descartarLinha Heap.descartarLinha
  rw [hin]
  cases limparBuffer n s.stdin with
  | none => rfl
  | some resto => exact ⟨_, rfl, rfl, hout, hcur⟩

/-- A turn of the loop in memory is the turn on the map the memory holds. -/
theorem iteracao_simula (n : Nat) (s : Heap.Estado) (st : Estado)
    (h : Heap.corresponde s st) :
    match iteracao n st with
    | none => Heap.iteracao n s = none
    | some (ctl, st1) => ∃ s1, Heap.iteracao n s = some (ctl, s1) ∧
        Heap.corresponde s1 st1 := by
  obtain ⟨hin, hout, hcur⟩ := h
  rcases st with ⟨t, stdin, stdout⟩
  simp only at hin hout hcur
  subst hin hout
  cases t with
  | NULL =>
    have hp := representa_NULL _ _ hcur
    simp only [iteracao, Heap.iteracao, hp]
    exact ⟨s, rfl, rfl, rfl, by rw [hp]; rfl⟩
  | mk nome esq dir =>
    obtain ⟨a, cel, hp, hl, hn, he, hd⟩ := representa_mk _ _ nome esq dir hcur
    have hnone : (cel.esquerda.isNone && cel.direita.isNone) = (esq.isNULL && dir.isNULL) := by
      rw [representa_isNone _ _ _ he, representa_isNone _ _ _ hd]
    unfold iteracao Heap.iteracao
    simp only [hp, hl, hnone, hn]
    by_cases hf : (esq.isNULL && dir.isNULL) = true
    · simp only [hf, if_true]
      refine ⟨_, rfl, rfl, by simp [printf, Heap.printf], ?_⟩
      simpa [Heap.printf, hp] using hcur
    · simp only [hf]
      have hex := exibirOpcoes_simula cel esq dir (Heap.printf s (.voceEstaEm nome)) s.mem rfl
        he hd
      rw [hex, exibirOpcoes_lista]
      simp only [printf, Heap.printf]
      rcases scanf s.stdin with ⟨tok, resto⟩
      cases tok with
      | none =>
        simp only
        exact descartarLinha_simula n _ _ ⟨rfl, by simp, by simpa [hp] using hcur⟩
      | some c =>
        simp only
        have hnav := navegar_simula cel esq dir c
          { mem := s.mem, salaAtual := s.salaAtual, stdin := resto,
            stdout := s.stdout ++ [.voceEstaEm nome] ++ listaOpcoes esq dir }
          { salaAtual := .mk nome esq dir, stdin := resto,
            stdout := s.stdout ++ [.voceEstaEm nome] ++ listaOpcoes esq dir }
          rfl rfl hcur he hd
        rcases htree : navegar esq dir c
          { salaAtual := .mk nome esq dir, stdin := resto,
            stdout := s.stdout ++ [.voceEstaEm nome] ++ listaOpcoes esq dir } with ⟨ctl, st4⟩
        rcases hheap : Heap.navegar cel c
          { mem := s.mem, salaAtual := s.salaAtual, stdin := resto,
            stdout := s.stdout ++ [.voceEstaEm nome] ++ listaOpcoes esq dir } with ⟨ctl2, s4⟩
        rw [htree, hheap] at hnav
        obtain ⟨hctl, hcor⟩ := hnav
        simp only at hctl hcor
        subst hctl
        simp only [Bool.false_eq_true, if_false]
        cases ctl2 with
        | para => exact ⟨s4, rfl, hcor⟩
        | continua => exact descartarLinha_simula n s4 st4 hcor

theorem explorarLaco_simula (n : Nat) :
    ∀ (s : Heap.Estado) (st : Estado), Heap.corresponde s st →
      match explorarLaco n st with
      | none => Heap.explorarLaco n s = none
      | some st1 => ∃ s1, Heap.explorarLaco n s = some s1 ∧ Heap.corresponde s1 st1 := by
  induction n with
  | zero => intro s st _; rfl
  | succ n ih =>
    intro s st h
    have hit := iteracao_simula n s st h
    simp only [explorarLaco, Heap.explorarLaco]
    rcases htree : iteracao n st with _ | ⟨ctl, st2⟩
    · rw [htree] at hit
      simp only at hit
      rw [hit]
    · rw [htree] at hit
      obtain ⟨s2, h2, hcor⟩ := hit
      rw [h2]
      cases ctl with
      | para => exact ⟨s2, rfl, hcor⟩
      | continua => exact ih s2 st2 hcor

/-- The exploration in memory is the exploration on the map the memory holds:
it returns when that one does, with the same input left and the same output, at
the room the other ends at. -/
theorem explorarSalas_simula (n : Nat) (s : Heap.Estado) (st : Estado)
    (h : Heap.corresponde s st) :
    match explorarSalas n st with
    | none => Heap.explorarSalas n s = none
    | some st1 => ∃ s1, Heap.explorarSalas n s = some s1 ∧ Heap.corresponde s1 st1 := by
  have hcur := h.2.2
  cases ht : st.salaAtual with
  | NULL =>
    rw [ht] at hcur
    have hp := representa_NULL _ _ hcur
    simp only [explorarSalas, Heap.explorarSalas, ht, hp]
    refine ⟨_, rfl, ?_⟩
    obtain ⟨hin, hout, _⟩ := h
    exact ⟨hin, by simp [printf, Heap.printf, hout], by simp [printf, Heap.printf, ht, hp, Heap.representa]⟩
  | mk nome esq dir =>
    rw [ht] at hcur
    obtain ⟨a, _, hp, _⟩ := representa_mk _ _ nome esq dir hcur
    have hl := explorarLaco_simula n s st h
    simp only [explorarSalas, Heap.explorarSalas, ht, hp]
    exact hl

/-- The two readings of `main` agree: with budget for `liberarMapa`, `main` in
memory returns when `main` on the map does, with the same input left, output
and exit status. -/
theorem main_simula (malloc : Nat → Bool) (n : Nat) (stdin : List Nat) (hn : 5 ≤ n) :
    (Heap.main malloc n stdin).map (fun p => (p.stdin, p.stdout, p.status)) =
      (main malloc n stdin).map (fun p => (p.stdin, p.stdout, p.status)) := by
  unfold Heap.main main
  rw [montarMapa_eq_mem, montarMapa_eq]
  split_ifs with hm
  · have hcor : Heap.corresponde
        ⟨Heap.mansao, some 0, stdin, [.titulo, .boasVindas]⟩
        ⟨mansao, stdin, [.titulo, .boasVindas]⟩ :=
      ⟨rfl, rfl, show Heap.representa Heap.mansao (some 0) mansao = true from by decide⟩
    have hsim := explorarSalas_simula n _ _ hcor
    simp only
    rcases htree : explorarSalas n ⟨mansao, stdin, [.titulo, .boasVindas]⟩ with _ | st1
    · rw [htree] at hsim
      simp only at hsim
      rw [hsim]
      rfl
    · rw [htree] at hsim
      obtain ⟨s1, h1, hin, hout, _⟩ := hsim
      have hmem := explorarSalas_mem n _ s1 h1
      simp only at hmem
      rw [h1]
      simp only [hmem, liberarMapa_mansao_some n hn, Option.map_some', hin, hout]
  · rfl

/-! ## The map is left as it was -/

end DetectiveQuest
